import Mathlib

/-!
A verification development for monit's service-lifecycle engine.

The definitions below are shallow embeddings of the C sources:

* `Time_incron` and its scanner loop embed the re2c-generated cron matcher
  of `libmonit/src/system/Time.c`.
* `_waitStart`, `_waitStop` and `_commandExecute` embed the wait loops of
  `src/control.c`.
* `control_service`, `_doStart`, `_doStop`, `_doRestart`, `_doMonitor`,
  `_doUnmonitor`, `_doDepend` and `reset_depend` embed the dependency-aware
  action dispatcher of `src/control.c`.

External collaborators (process probes, command spawning, the `Run.stopped`
flag) are modelled as oracle streams, and recursion is bounded by an explicit
fuel argument with enough fuel supplied at every top-level entry point.
`Option` results model undefined behaviour (failed `assert`, out-of-bounds
array reads) and fuel exhaustion as `none`.
-/

namespace Monit

/-- Digits `0`-`9`: the characters with bit `128` set in the `yybm` table of
the re2c scanner inside `Time_incron` (`Time.c`). -/
def isCronDigit (c : Char) : Bool := '0' ≤ c && c ≤ '9'

/-- The whitespace characters the `Time_incron` scanner skips (the dispatch
rows that jump to `yy2`): tab, newline, carriage return and space. -/
def isCronSpace (c : Char) : Bool := c = ' ' || c = '\t' || c = '\n' || c = '\r'

/-- Modelled from the spec: `Str_parseInt` (libmonit `Str.c`, which is not
under `src/`) parses a leading decimal integer, `strtol`-style.  The scanner
only applies it to tokens that begin with a run of digits. -/
def Str_parseInt (ds : List Char) : Int :=
  ds.foldl (fun a c => 10 * a + ((c.toNat : Int) - 48)) 0

/-- The local-time decomposition of a timestamp, as produced by
`Time_minutes`, `Time_hour`, `Time_day`, `Time_month` and `Time_weekday` in
`Time.c` (all thin wrappers around `localtime_r`, modelled as an explicit
record of the five field values). -/
structure CronTime where
  minute : Int
  hour : Int
  day : Int
  month : Int
  weekday : Int
deriving DecidableEq, Repr

/-- The scanner loop of `Time_incron` (`Time.c`).  `fields` is the `fields[]`
array, `n` the current field index and `found` the match counter; the loop
returns `found == 5` when the input is exhausted.  A result of `none` models
behaviour that is undefined in the C code: the `assert(n < 5 && n >= 0)`
after a comma failing, or `fields[n]` being read with `n` out of bounds.
`fuel` bounds the recursion; every step consumes at least one character, so
`cron.length + 1` is always sufficient. -/
def incronGo (fields : List Int) : Nat → List Char → Int → Int → Option Bool
  | 0, _, _, _ => none
  | _ + 1, [], _, found => some (found == 5)
  | fuel + 1, c :: rest, n, found =>
    if isCronSpace c then
      -- yy2: skip whitespace
      incronGo fields fuel rest n found
    else if c = '*' then
      -- yy4: wildcard always matches
      incronGo fields fuel rest (n + 1) (found + 1)
    else if c = ',' then
      -- yy6: backtrack on fields advance; assert(n < 5 && n >= 0)
      if 0 ≤ n - 1 ∧ n - 1 < 5 then incronGo fields fuel rest (n - 1) found
      else none
    else if isCronDigit c then
      -- yy8/yy12/yy13: scan the digit run, then look ahead for a range
      let tok := c :: rest.takeWhile isCronDigit
      let rest1 := rest.dropWhile isCronDigit
      match rest1 with
      | '-' :: c2 :: rest3 =>
        if isCronDigit c2 then
          -- yy16/yy18: an inclusive range from-to
          let tok2 := c2 :: rest3.takeWhile isCronDigit
          let rest2 := rest3.dropWhile isCronDigit
          if 0 ≤ n ∧ n < 5 then
            incronGo fields fuel rest2 (n + 1)
              (if Str_parseInt tok ≤ fields.getD n.toNat 0 ∧
                  fields.getD n.toNat 0 ≤ Str_parseInt tok2 then found + 1 else found)
          else none
        else
          -- yy15/yy9: the dash is not followed by a digit; backtrack to the
          -- position right after the first digit run and treat it as a number
          if 0 ≤ n ∧ n < 5 then
            incronGo fields fuel rest1 (n + 1)
              (if fields.getD n.toNat 0 = Str_parseInt tok then found + 1 else found)
          else none
      | _ =>
        -- yy9: a plain number
        if 0 ≤ n ∧ n < 5 then
          incronGo fields fuel rest1 (n + 1)
            (if fields.getD n.toNat 0 = Str_parseInt tok then found + 1 else found)
        else none
    else
      -- yy10: any other character fails the whole match
      some false

/-- `Time_incron` (`Time.c`): match a cron expression against the local-time
decomposition `fields[] = {minutes, hour, day, month, weekday}` of a
timestamp. -/
def Time_incron (cron : List Char) (t : CronTime) : Option Bool :=
  incronGo [t.minute, t.hour, t.day, t.month, t.weekday] (cron.length + 1) cron 0 0

/-! ### The stated cron grammar -/

/-- One element of a cron field in the grammar stated by the spec:
a wildcard, an integer, or an inclusive range. -/
inductive CronAtom
  | star
  | num (k : Nat)
  | range (lo hi : Nat)
deriving DecidableEq, Repr

/-- A cron field: a nonempty comma-separated list of atoms. -/
structure CronField where
  first : CronAtom
  rest : List CronAtom
deriving DecidableEq, Repr

/-- A cron expression of the stated grammar: five fields. -/
structure CronExpr where
  minute : CronField
  hour : CronField
  day : CronField
  month : CronField
  weekday : CronField
deriving DecidableEq, Repr

/-- The decimal digit characters. -/
def digitChar : Nat → Char
  | 0 => '0' | 1 => '1' | 2 => '2' | 3 => '3' | 4 => '4'
  | 5 => '5' | 6 => '6' | 7 => '7' | 8 => '8' | _ => '9'

/-- Decimal digits of `k`, most significant first; structurally recursive on
a fuel bound so that concrete renderings evaluate by `decide`. -/
def renderNumAux : Nat → Nat → List Char
  | 0, _ => []
  | _ + 1, 0 => []
  | fuel + 1, k + 1 => renderNumAux fuel ((k + 1) / 10) ++ [digitChar ((k + 1) % 10)]

/-- Render a natural number in decimal. -/
def renderNum (k : Nat) : List Char :=
  if k = 0 then ['0'] else renderNumAux (k + 1) k

/-- Render one atom of a cron field. -/
def renderAtom : CronAtom → List Char
  | .star => ['*']
  | .num k => renderNum k
  | .range lo hi => renderNum lo ++ '-' :: renderNum hi

/-- Render the tail of a comma-separated atom list. -/
def renderAtomsTail : List CronAtom → List Char
  | [] => []
  | a :: as => ',' :: (renderAtom a ++ renderAtomsTail as)

/-- Render a cron field in its canonical form. -/
def renderField (f : CronField) : List Char :=
  renderAtom f.first ++ renderAtomsTail f.rest

/-- Render a cron expression in its canonical single-space form. -/
def renderExpr (e : CronExpr) : List Char :=
  renderField e.minute ++ ' ' :: (renderField e.hour ++ ' ' ::
    (renderField e.day ++ ' ' :: (renderField e.month ++ ' ' :: renderField e.weekday)))

/-- How many matches one atom contributes for a field value, mirroring the
scanner's `found` increments. -/
def atomCount (a : CronAtom) (v : Int) : Int :=
  match a with
  | .star => 1
  | .num k => if v = (k : Int) then 1 else 0
  | .range lo hi => if (lo : Int) ≤ v ∧ v ≤ (hi : Int) then 1 else 0

/-- The total number of matching elements a field contributes. -/
def fieldCount (f : CronField) (v : Int) : Int :=
  ((f.first :: f.rest).map (atomCount · v)).sum

/-- The total number of matching elements over the five fields. -/
def countMatches (e : CronExpr) (t : CronTime) : Int :=
  fieldCount e.minute t.minute + fieldCount e.hour t.hour + fieldCount e.day t.day +
    fieldCount e.month t.month + fieldCount e.weekday t.weekday

/-- Modelled from the spec's words, for comparison with the code: an atom
matches a field value when it is a wildcard, an equal integer, or a range
containing the value. -/
def atomMatchesSpec (a : CronAtom) (v : Int) : Bool :=
  match a with
  | .star => true
  | .num k => v = (k : Int)
  | .range lo hi => (lo : Int) ≤ v && v ≤ (hi : Int)

/-- Modelled from the spec's words: a field matches when any of its elements
matches. -/
def fieldMatchesSpec (f : CronField) (v : Int) : Bool :=
  (f.first :: f.rest).any (atomMatchesSpec · v)

/-- Modelled from the spec's words: the matcher succeeds iff all five fields
match. -/
def cronSpecMatch (e : CronExpr) (t : CronTime) : Bool :=
  fieldMatchesSpec e.minute t.minute && fieldMatchesSpec e.hour t.hour &&
    fieldMatchesSpec e.day t.day && fieldMatchesSpec e.month t.month &&
    fieldMatchesSpec e.weekday t.weekday

/-- Integer literals small enough for `Str_parseInt`'s `strtol` backend. -/
def atomWf : CronAtom → Prop
  | .star => True
  | .num k => k ≤ 2147483647
  | .range lo hi => lo ≤ 2147483647 ∧ hi ≤ 2147483647

/-- Well-formedness of a field: all its atoms are well formed. -/
def fieldWf (f : CronField) : Prop :=
  atomWf f.first ∧ ∀ a ∈ f.rest, atomWf a

/-- Well-formedness of an expression of the stated grammar. -/
def exprWf (e : CronExpr) : Prop :=
  fieldWf e.minute ∧ fieldWf e.hour ∧ fieldWf e.day ∧ fieldWf e.month ∧ fieldWf e.weekday

/-- The characters that can appear in an expression of the stated grammar. -/
def isCronGrammarChar (c : Char) : Bool :=
  isCronDigit c || isCronSpace c || c = '*' || c = ',' || c = '-'


/-! ### Basic facts about the scanner's character classes -/

lemma isCronDigit_ne_star {c : Char} (h : isCronDigit c = true) : c ≠ '*' := by
  intro he; subst he; exact absurd h (by decide)

lemma isCronDigit_ne_comma {c : Char} (h : isCronDigit c = true) : c ≠ ',' := by
  intro he; subst he; exact absurd h (by decide)

lemma isCronDigit_not_space {c : Char} (h : isCronDigit c = true) :
    isCronSpace c = false := by
  by_contra hs
  have hs' : isCronSpace c = true := by
    cases hx : isCronSpace c
    · exact absurd hx hs
    · rfl
  have : ((c = ' ' ∨ c = '\t') ∨ c = '\n') ∨ c = '\r' := by
    simpa [isCronSpace] using hs'
  rcases this with ((rfl | rfl) | rfl) | rfl <;> exact absurd h (by decide)

lemma digitChar_isCronDigit (m : Nat) : isCronDigit (digitChar m) = true := by
  unfold digitChar; split <;> decide

lemma digitChar_toNat {m : Nat} (h : m < 10) : (digitChar m).toNat = 48 + m := by
  interval_cases m <;> rfl

/-! ### Digit rendering round-trips through `Str_parseInt` -/

lemma Str_parseInt_append (l1 l2 : List Char) :
    Str_parseInt (l1 ++ l2) =
      l2.foldl (fun a c => 10 * a + ((c.toNat : Int) - 48)) (Str_parseInt l1) := by
  simp [Str_parseInt, List.foldl_append]

lemma renderNumAux_spec :
    ∀ fuel k, k ≤ fuel →
      Str_parseInt (renderNumAux fuel k) = (k : Int) ∧
      (∀ c ∈ renderNumAux fuel k, isCronDigit c = true) ∧
      (k ≠ 0 → renderNumAux fuel k ≠ []) := by
  intro fuel
  induction fuel with
  | zero =>
      intro k hk
      have : k = 0 := by omega
      subst this
      exact ⟨by simp [renderNumAux, Str_parseInt], by simp [renderNumAux], by simp⟩
  | succ f ih =>
      intro k hk
      cases k with
      | zero => exact ⟨by simp [renderNumAux, Str_parseInt], by simp [renderNumAux], by simp⟩
      | succ m =>
          have hdivle : (m + 1) / 10 ≤ f := by
            have := Nat.div_lt_self (Nat.succ_pos m) (by norm_num : 1 < 10)
            omega
          obtain ⟨ih1, ih2, _⟩ := ih ((m + 1) / 10) hdivle
          have hmod : (m + 1) % 10 < 10 := Nat.mod_lt _ (by norm_num)
          refine ⟨?_, ?_, ?_⟩
          · rw [renderNumAux, Str_parseInt_append, ih1]
            simp [digitChar_toNat hmod]
            have := Nat.div_add_mod (m + 1) 10
            omega
          · intro c hc
            rw [renderNumAux] at hc
            rcases List.mem_append.mp hc with h | h
            · exact ih2 c h
            · simp at h
              exact h ▸ digitChar_isCronDigit _
          · intro _
            rw [renderNumAux]
            simp

lemma renderNum_spec (k : Nat) : ∃ d ds, renderNum k = d :: ds ∧
    isCronDigit d = true ∧ (∀ c ∈ ds, isCronDigit c = true) ∧
    Str_parseInt (d :: ds) = (k : Int) := by
  by_cases hk : k = 0
  · subst hk
    exact ⟨'0', [], rfl, by decide, by simp, by decide⟩
  · obtain ⟨h1, h2, h3⟩ := renderNumAux_spec (k + 1) k (by omega)
    have hne : renderNumAux (k + 1) k ≠ [] := h3 hk
    obtain ⟨d, ds, hds⟩ := List.exists_cons_of_ne_nil hne
    refine ⟨d, ds, ?_, ?_, ?_, ?_⟩
    · simp [renderNum, hk, hds]
    · exact h2 d (by simp [hds])
    · exact fun c hc => h2 c (by simp [hds, hc])
    · rw [← hds]
      exact h1

lemma renderNum_digits (k : Nat) : ∀ c ∈ renderNum k, isCronDigit c = true := by
  obtain ⟨d, ds, hrn, h1, h2, _⟩ := renderNum_spec k
  intro c hc
  rw [hrn] at hc
  rcases hc with _ | hc
  · exact h1
  · exact h2 c (by assumption)

/-! ### Scanning a digit run -/

/-- The continuation after a token must not begin with a digit. -/
def headNotDigit : List Char → Prop
  | [] => True
  | c :: _ => isCronDigit c = false

/-- The continuation after an atom must not begin with a digit or a dash. -/
def safeHead : List Char → Prop
  | [] => True
  | c :: _ => isCronDigit c = false ∧ c ≠ '-'

lemma safeHead.notDigit {l : List Char} (h : safeHead l) : headNotDigit l := by
  cases l with
  | nil => trivial
  | cons c rest => exact h.1

lemma digit_run_split {l1 l2 : List Char} (h1 : ∀ c ∈ l1, isCronDigit c = true)
    (h2 : headNotDigit l2) :
    (l1 ++ l2).takeWhile isCronDigit = l1 ∧ (l1 ++ l2).dropWhile isCronDigit = l2 := by
  induction l1 with
  | nil =>
      cases l2 with
      | nil => simp
      | cons c rest =>
          have : isCronDigit c = false := h2
          simp [List.takeWhile_cons, List.dropWhile_cons, this]
  | cons c l1 ih =>
      have hc : isCronDigit c = true := h1 c (by simp)
      have ih' := ih (fun x hx => h1 x (by simp [hx]))
      simp [List.takeWhile_cons, List.dropWhile_cons, hc, ih'.1, ih'.2]

/-! ### Step lemmas for the scanner on rendered tokens -/

lemma ite_succ_form (c : Prop) [Decidable c] (found : Int) :
    (if c then found + 1 else found) = found + (if c then 1 else 0) := by
  split <;> ring

lemma incronGo_nil {fields : List Int} {n found : Int} {fuel : Nat} (h : 0 < fuel) :
    incronGo fields fuel [] n found = some (found == 5) := by
  cases fuel with
  | zero => omega
  | succ f => rfl

lemma incronGo_space_step {fields : List Int} {c : Char} {rest : List Char} {n found : Int}
    {fuel : Nat} (hsp : isCronSpace c = true) (hfuel : (c :: rest).length < fuel) :
    ∃ fuel', rest.length < fuel' ∧
      incronGo fields fuel (c :: rest) n found = incronGo fields fuel' rest n found := by
  cases fuel with
  | zero => simp at hfuel
  | succ f =>
      refine ⟨f, by simp at hfuel; omega, ?_⟩
      simp [incronGo, hsp]

lemma incronGo_comma_step {fields : List Int} {rest : List Char} {n found : Int}
    {fuel : Nat} (hn : 0 ≤ n - 1 ∧ n - 1 < 5) (hfuel : (',' :: rest).length < fuel) :
    ∃ fuel', rest.length < fuel' ∧
      incronGo fields fuel (',' :: rest) n found = incronGo fields fuel' rest (n - 1) found := by
  cases fuel with
  | zero => simp at hfuel
  | succ f =>
      refine ⟨f, by simp at hfuel; omega, ?_⟩
      have h1 : isCronSpace ',' = false := by decide
      have h2 : (',' : Char) ≠ '*' := by decide
      simp [incronGo, h1, h2, hn]

lemma renderAtom_ne_nil (a : CronAtom) : renderAtom a ≠ [] := by
  cases a with
  | star => simp [renderAtom]
  | num k =>
      obtain ⟨d, ds, hrn, _, _, _⟩ := renderNum_spec k
      simp [renderAtom, hrn]
  | range lo hi =>
      obtain ⟨d, ds, hrn, _, _, _⟩ := renderNum_spec lo
      simp [renderAtom, hrn]

lemma incronGo_atom {fields : List Int} (a : CronAtom) {rest : List Char} {n found : Int}
    {fuel : Nat} (hsafe : safeHead rest) (hn0 : 0 ≤ n) (hn5 : n < 5)
    (hfuel : (renderAtom a ++ rest).length < fuel) :
    ∃ fuel', rest.length < fuel' ∧
      incronGo fields fuel (renderAtom a ++ rest) n found
        = incronGo fields fuel' rest (n + 1)
            (found + atomCount a (fields.getD n.toNat 0)) := by
  cases fuel with
  | zero => simp at hfuel
  | succ f =>
    have hlen : 1 ≤ (renderAtom a).length := by
      have := renderAtom_ne_nil a
      cases h : renderAtom a with
      | nil => exact absurd h this
      | cons x xs => simp
    refine ⟨f, by simp at hfuel; omega, ?_⟩
    cases a with
    | star =>
        have h1 : isCronSpace '*' = false := by decide
        simp [renderAtom, incronGo, h1, atomCount]
    | num k =>
        obtain ⟨d, ds, hrn, hd, hds, hparse⟩ := renderNum_spec k
        have hnotsp := isCronDigit_not_space hd
        have hnstar := isCronDigit_ne_star hd
        have hncomma := isCronDigit_ne_comma hd
        have hsplit := digit_run_split hds hsafe.notDigit
        have hgoal : renderAtom (CronAtom.num k) ++ rest = d :: (ds ++ rest) := by
          simp [renderAtom, hrn]
        rw [hgoal]
        simp only [incronGo, hnotsp, Bool.false_eq_true, if_false, hd, if_true,
          hsplit.1, hsplit.2, if_neg hnstar, if_neg hncomma]
        cases rest with
        | nil =>
            rw [if_pos (⟨hn0, hn5⟩ : 0 ≤ n ∧ n < 5), hparse]
            simp [atomCount, ite_succ_form]
        | cons r rs =>
            split
            · next c2 rest3 heq =>
                injection heq with h1 _
                exact absurd h1 hsafe.2
            · rw [if_pos (⟨hn0, hn5⟩ : 0 ≤ n ∧ n < 5), hparse]
              simp [atomCount, ite_succ_form]
    | range lo hi =>
        obtain ⟨d, ds, hrn, hd, hds, hparse⟩ := renderNum_spec lo
        obtain ⟨d2, hs2, hrn2, hd2, hhs2, hparse2⟩ := renderNum_spec hi
        have hnotsp := isCronDigit_not_space hd
        have hnstar := isCronDigit_ne_star hd
        have hncomma := isCronDigit_ne_comma hd
        have hnd : headNotDigit ('-' :: (renderNum hi ++ rest)) := by
          show isCronDigit '-' = false
          decide
        have hsplit := digit_run_split hds hnd
        have hsplit2 := digit_run_split hhs2 hsafe.notDigit
        have hgoal : renderAtom (CronAtom.range lo hi) ++ rest
            = d :: (ds ++ ('-' :: (renderNum hi ++ rest))) := by
          simp [renderAtom, hrn]
        rw [hgoal]
        simp only [incronGo, hnotsp, Bool.false_eq_true, if_false, hd, if_true,
          hsplit.1, hsplit.2, if_neg hnstar, if_neg hncomma]
        rw [hrn2]
        simp only [List.cons_append, hd2, if_true, hsplit2.1, hsplit2.2]
        rw [if_pos (⟨hn0, hn5⟩ : 0 ≤ n ∧ n < 5), hparse, hparse2]
        simp [atomCount, ite_succ_form]

/-- Consuming a whole comma-separated atom list advances the field index once
and adds the number of matching elements to `found`. -/
lemma incronGo_atoms {fields : List Int} (a : CronAtom) (as : List CronAtom) :
    ∀ {rest : List Char} {n found : Int} {fuel : Nat},
      safeHead rest → 0 ≤ n → n < 5 →
      (renderAtom a ++ (renderAtomsTail as ++ rest)).length < fuel →
      ∃ fuel', rest.length < fuel' ∧
        incronGo fields fuel (renderAtom a ++ (renderAtomsTail as ++ rest)) n found
          = incronGo fields fuel' rest (n + 1)
              (found + (((a :: as).map (atomCount · (fields.getD n.toNat 0))).sum)) := by
  induction as generalizing a with
  | nil =>
      intro rest n found fuel hsafe hn0 hn5 hfuel
      simp only [renderAtomsTail, List.nil_append] at hfuel ⊢
      obtain ⟨fuel', h1, h2⟩ := incronGo_atom a hsafe hn0 hn5 hfuel
      exact ⟨fuel', h1, by simpa using h2⟩
  | cons b bs ih =>
      intro rest n found fuel hsafe hn0 hn5 hfuel
      have hmid : renderAtomsTail (b :: bs) ++ rest
          = ',' :: (renderAtom b ++ (renderAtomsTail bs ++ rest)) := by
        simp [renderAtomsTail]
      rw [hmid] at hfuel ⊢
      have hsafe1 : safeHead (',' :: (renderAtom b ++ (renderAtomsTail bs ++ rest))) :=
        ⟨by decide, by decide⟩
      obtain ⟨f1, hf1, he1⟩ := incronGo_atom a hsafe1 hn0 hn5 hfuel
      rw [he1]
      have hcomma : (0 : Int) ≤ n + 1 - 1 ∧ n + 1 - 1 < 5 := by omega
      obtain ⟨f2, hf2, he2⟩ := incronGo_comma_step hcomma hf1
      rw [he2]
      have hn' : n + 1 - 1 = n := by omega
      rw [hn']
      obtain ⟨f3, hf3, he3⟩ := ih b hsafe hn0 hn5 hf2
      rw [he3]
      refine ⟨f3, hf3, ?_⟩
      congr 1
      simp [List.sum_cons]
      ring

/-- Consuming a whole rendered cron field. -/
lemma incronGo_field {fields : List Int} (fld : CronField) {rest : List Char}
    {n found : Int} {fuel : Nat}
    (hsafe : safeHead rest) (hn0 : 0 ≤ n) (hn5 : n < 5)
    (hfuel : (renderField fld ++ rest).length < fuel) :
    ∃ fuel', rest.length < fuel' ∧
      incronGo fields fuel (renderField fld ++ rest) n found
        = incronGo fields fuel' rest (n + 1)
            (found + fieldCount fld (fields.getD n.toNat 0)) := by
  have h : renderField fld ++ rest = renderAtom fld.first ++ (renderAtomsTail fld.rest ++ rest) := by
    simp [renderField]
  rw [h] at hfuel ⊢
  obtain ⟨fuel', h1, h2⟩ := incronGo_atoms fld.first fld.rest hsafe hn0 hn5 hfuel
  exact ⟨fuel', h1, by simpa [fieldCount] using h2⟩

lemma beq_eq_decide (x : Int) : (x == 5) = decide (x = 5) := by
  by_cases h : x = 5 <;> simp [h]

/-- Matching a rendered grammar expression computes the total number of
matching elements over the five fields and compares it with five. -/
lemma Time_incron_render (e : CronExpr) (t : CronTime) :
    Time_incron (renderExpr e) t = some (decide (countMatches e t = 5)) := by
  have hsp : isCronSpace ' ' = true := by decide
  have hsafeSp : ∀ X : List Char, safeHead (' ' :: X) := fun X => ⟨by decide, by decide⟩
  have hsafeNil : safeHead ([] : List Char) := trivial
  unfold Time_incron
  have hL : renderExpr e
      = renderField e.minute ++ (' ' :: (renderField e.hour ++ (' ' ::
          (renderField e.day ++ (' ' :: (renderField e.month ++ (' ' ::
            (renderField e.weekday ++ ([] : List Char))))))))) := by
    simp [renderExpr]
  rw [hL]
  obtain ⟨f1, hf1, e1⟩ := incronGo_field (n := 0)
    e.minute (hsafeSp _) (by norm_num) (by norm_num) (Nat.lt_succ_self _)
  rw [e1]
  obtain ⟨f2, hf2, e2⟩ := incronGo_space_step hsp hf1
  rw [e2]
  obtain ⟨f3, hf3, e3⟩ := incronGo_field (n := 0 + 1) e.hour (hsafeSp _) (by norm_num) (by norm_num) hf2
  rw [e3]
  obtain ⟨f4, hf4, e4⟩ := incronGo_space_step hsp hf3
  rw [e4]
  obtain ⟨f5, hf5, e5⟩ := incronGo_field (n := 0 + 1 + 1) e.day (hsafeSp _) (by norm_num) (by norm_num) hf4
  rw [e5]
  obtain ⟨f6, hf6, e6⟩ := incronGo_space_step hsp hf5
  rw [e6]
  obtain ⟨f7, hf7, e7⟩ := incronGo_field (n := 0 + 1 + 1 + 1) e.month (hsafeSp _) (by norm_num) (by norm_num) hf6
  rw [e7]
  obtain ⟨f8, hf8, e8⟩ := incronGo_space_step hsp hf7
  rw [e8]
  obtain ⟨f9, hf9, e9⟩ := incronGo_field (n := 0 + 1 + 1 + 1 + 1) e.weekday hsafeNil (by norm_num) (by norm_num) hf8
  rw [e9]
  rw [incronGo_nil (by simpa using hf9)]
  congr 1
  rw [beq_eq_decide]
  have h2 : Int.toNat 2 = 2 := rfl
  have h3 : Int.toNat 3 = 3 := rfl
  have h4 : Int.toNat 4 = 4 := rfl
  norm_num [countMatches, h2, h3, h4]

/-! ### Inputs outside the stated grammar -/

lemma badChar_facts {b : Char} (h : isCronGrammarChar b = false) :
    isCronDigit b = false ∧ isCronSpace b = false ∧ b ≠ '*' ∧ b ≠ ',' ∧ b ≠ '-' := by
  unfold isCronGrammarChar at h
  simp only [Bool.or_eq_false_iff, decide_eq_false_iff_not] at h
  tauto

lemma mem_dropWhile_of_bad {b : Char} {l : List Char} (hmem : b ∈ l)
    (hbd : isCronDigit b = false) : b ∈ l.dropWhile isCronDigit := by
  have := List.takeWhile_append_dropWhile (p := isCronDigit) (l := l)
  rw [← this] at hmem
  rcases List.mem_append.mp hmem with h | h
  · have := List.mem_takeWhile_imp h
    rw [this] at hbd
    exact absurd hbd (by simp)
  · exact h

/-- A character outside the grammar is never consumed silently: if the input
contains one, the scanner either fails the match outright or hits undefined
behaviour, but never reports a match. -/
lemma incronGo_bad_char {fields : List Int} :
    ∀ (fuel : Nat) (l : List Char) (n found : Int),
      (∃ c ∈ l, isCronGrammarChar c = false) →
      incronGo fields fuel l n found ≠ some true := by
  intro fuel
  induction fuel with
  | zero =>
      intro l n found _
      simp [incronGo]
  | succ f ih =>
    intro l n found hbad
    obtain ⟨b, hbmem, hb⟩ := hbad
    obtain ⟨hbd, hbs, hbstar, hbcomma, hbdash⟩ := badChar_facts hb
    cases l with
    | nil => simp at hbmem
    | cons c rest =>
      simp only [incronGo]
      by_cases hsp : isCronSpace c = true
      · have hbc : b ≠ c := fun he => by rw [he] at hbs; rw [hbs] at hsp; cases hsp
        have hrest : b ∈ rest := by
          rcases List.mem_cons.mp hbmem with he | h
          · exact absurd he hbc
          · exact h
        simp only [hsp, if_true]
        exact ih rest n found ⟨b, hrest, hb⟩
      · rw [if_neg hsp]
        by_cases hstar : c = '*'
        · have hbc : b ≠ c := fun he => hbstar (he.trans hstar)
          have hrest : b ∈ rest := by
            rcases List.mem_cons.mp hbmem with he | h
            · exact absurd he hbc
            · exact h
          rw [if_pos hstar]
          exact ih rest (n + 1) (found + 1) ⟨b, hrest, hb⟩
        · rw [if_neg hstar]
          by_cases hcomma : c = ','
          · have hbc : b ≠ c := fun he => hbcomma (he.trans hcomma)
            have hrest : b ∈ rest := by
              rcases List.mem_cons.mp hbmem with he | h
              · exact absurd he hbc
              · exact h
            rw [if_pos hcomma]
            by_cases hg : (0 : Int) ≤ n - 1 ∧ n - 1 < 5
            · rw [if_pos hg]
              exact ih rest (n - 1) found ⟨b, hrest, hb⟩
            · rw [if_neg hg]
              simp
          · rw [if_neg hcomma]
            by_cases hdig : isCronDigit c = true
            · have hbc : b ≠ c := fun he => by rw [he] at hbd; rw [hbd] at hdig; cases hdig
              have hrest : b ∈ rest := by
                rcases List.mem_cons.mp hbmem with he | h
                · exact absurd he hbc
                · exact h
              have hdw : b ∈ rest.dropWhile isCronDigit := mem_dropWhile_of_bad hrest hbd
              simp only [hdig, if_true]
              cases hshape : rest.dropWhile isCronDigit with
              | nil =>
                  rw [hshape] at hdw
                  simp at hdw
              | cons r1 rs1 =>
                rw [hshape] at hdw
                split
                · next c2 rest3 heq =>
                    injection heq with h1 h2
                    subst h1
                    subst h2
                    by_cases hd2 : isCronDigit c2 = true
                    · simp only [hd2, if_true]
                      have hb3 : b ∈ rest3 := by
                        rcases List.mem_cons.mp hdw with he | h
                        · exact absurd he hbdash
                        · rcases List.mem_cons.mp h with he2 | h2
                          · rw [he2] at hbd; rw [hbd] at hd2; cases hd2
                          · exact h2
                      by_cases hg : (0 : Int) ≤ n ∧ n < 5
                      · rw [if_pos hg]
                        exact ih _ _ _ ⟨b, mem_dropWhile_of_bad hb3 hbd, hb⟩
                      · rw [if_neg hg]
                        simp
                    · rw [if_neg hd2]
                      by_cases hg : (0 : Int) ≤ n ∧ n < 5
                      · rw [if_pos hg]
                        exact ih _ _ _ ⟨b, hdw, hb⟩
                      · rw [if_neg hg]
                        simp
                · by_cases hg : (0 : Int) ≤ n ∧ n < 5
                  · rw [if_pos hg]
                    exact ih _ _ _ ⟨b, hdw, hb⟩
                  · rw [if_neg hg]
                    simp
            · rw [if_neg (fun x => by rw [x] at hdig; exact hdig rfl)]
              simp

/-! ### Claim C1 -/

/-- C1 (amended): for every cron expression of the stated grammar (with
integer literals in `int` range) and every local-time decomposition,
`Time_incron` reports a match if and only if the total number of matching
elements over the five fields — each comma-separated list contributing the
number of its matching elements, `*` contributing one — is exactly five. -/
theorem C1_cron_total_count (e : CronExpr) (t : CronTime) (_hwf : exprWf e) :
    Time_incron (renderExpr e) t = some (decide (countMatches e t = 5)) :=
  Time_incron_render e t

/-- Witness for C1 at the spec's own example `30 4 * * *`, matched at
04:30 local time. -/
theorem C1_cron_total_count_witness :
    exprWf ⟨⟨.num 30, []⟩, ⟨.num 4, []⟩, ⟨.star, []⟩, ⟨.star, []⟩, ⟨.star, []⟩⟩ ∧
      Time_incron
        (renderExpr ⟨⟨.num 30, []⟩, ⟨.num 4, []⟩, ⟨.star, []⟩, ⟨.star, []⟩, ⟨.star, []⟩⟩)
        ⟨30, 4, 15, 6, 3⟩
        = some (decide (countMatches
            ⟨⟨.num 30, []⟩, ⟨.num 4, []⟩, ⟨.star, []⟩, ⟨.star, []⟩, ⟨.star, []⟩⟩
            ⟨30, 4, 15, 6, 3⟩ = 5)) :=
  ⟨by constructor <;> simp [fieldWf, atomWf],
   C1_cron_total_count _ _ (by constructor <;> simp [fieldWf, atomWf])⟩

/-- C1, counterexample: the expression `1,1 * * * *` lies in the stated
grammar and at minute 1 all five fields match in the spec's sense, yet
`Time_incron` reports *no* match, because both elements of the minute list
match and the total becomes 6 ≠ 5. -/
theorem C1_list_double_count_cex :
    renderExpr ⟨⟨.num 1, [.num 1]⟩, ⟨.star, []⟩, ⟨.star, []⟩, ⟨.star, []⟩, ⟨.star, []⟩⟩
        = "1,1 * * * *".toList
      ∧ cronSpecMatch ⟨⟨.num 1, [.num 1]⟩, ⟨.star, []⟩, ⟨.star, []⟩, ⟨.star, []⟩, ⟨.star, []⟩⟩
          ⟨1, 4, 7, 5, 2⟩ = true
      ∧ Time_incron "1,1 * * * *".toList ⟨1, 4, 7, 5, 2⟩ = some false := by
  refine ⟨?_, ?_, ?_⟩ <;> decide

/-! ### Claim C8 -/

/-- C8 (amended): a cron expression containing a character outside the
stated grammar never yields a match: `Time_incron` returns "no match" unless
the scanner's field-index assertion fails first (modelled as `none`), and in
no case does it report a match. -/
theorem C8_bad_token_no_match (l : List Char) (t : CronTime)
    (hbad : ∃ c ∈ l, isCronGrammarChar c = false) :
    Time_incron l t ≠ some true :=
  incronGo_bad_char _ l 0 0 hbad

/-- Witness for C8 at the spec's own example `0-15,45 */1 * * 1-5`, whose
slash is outside the grammar. -/
theorem C8_bad_token_no_match_witness :
    (∃ c ∈ "0-15,45 */1 * * 1-5".toList, isCronGrammarChar c = false) ∧
      Time_incron "0-15,45 */1 * * 1-5".toList ⟨10, 4, 15, 6, 3⟩ ≠ some true :=
  ⟨by decide, C8_bad_token_no_match _ ⟨10, 4, 15, 6, 3⟩ (by decide)⟩

/-- C8, counterexample: the expression `,/` contains the out-of-grammar
character `/`, but instead of returning "no match" the matcher aborts:
the leading comma drives the field index to −1 and the
`assert(n < 5 && n >= 0)` fails before the slash is ever reached (modelled
as `none`, which differs from the claimed `some false`). -/
theorem C8_assert_abort_cex :
    ('/' ∈ ",/".toList ∧ isCronGrammarChar '/' = false) ∧
      Time_incron ",/".toList ⟨0, 0, 1, 1, 0⟩ = none ∧
      Time_incron ",/".toList ⟨0, 0, 1, 1, 0⟩ ≠ some false := by
  refine ⟨⟨?_, ?_⟩, ?_, ?_⟩ <;> decide

/-! ## The wait loops and command executor of `control.c` -/

/-- `Process_Status` (`control.c`). -/
inductive Process_Status
  | stopped
  | started
deriving DecidableEq, Repr

/-- The loop of `_waitStart` (`control.c`): check the process, sleep `wait`
microseconds, charge the sleep to the timeout, double `wait` (capping the
doubled value at 1 s only once it has reached 1 s), and loop while timeout
remains and no shutdown was requested.  `runningAt k` models the result of
`Util_isProcessRunning` at iteration `k` and `stoppedAt k` the `Run.stopped`
flag; the returned list collects the slept intervals.  `none` is fuel
exhaustion; the timeout shrinks by at least 50 ms per iteration, so
`timeout.toNat + 1` fuel always suffices. -/
def waitStartGo (runningAt stoppedAt : Nat → Bool) :
    Nat → Nat → Int → Int → List Int → Option (Process_Status × Int × List Int)
  | 0, _, _, _, _ => none
  | fuel + 1, k, wait, timeout, sleeps =>
    if runningAt k then some (.started, timeout, sleeps)
    else
      let rem := timeout - wait
      let wait' := if wait < 1000000 then wait * 2 else 1000000
      if rem > 0 ∧ ¬ stoppedAt k then
        waitStartGo runningAt stoppedAt fuel (k + 1) wait' rem (sleeps ++ [wait])
      else
        some (.stopped, rem, sleeps ++ [wait])

/-- `_waitStart` (`control.c`), with its initial 50 ms wait. -/
def _waitStart (runningAt stoppedAt : Nat → Bool) (timeout : Int) :
    Option (Process_Status × Int × List Int) :=
  waitStartGo runningAt stoppedAt (timeout.toNat + 1) 0 50000 timeout []

/-- The loop of `_waitStop` (`control.c`): poll every 100 ms for the pid to
disappear.  `goneAt k` models `getpgid(pid) == -1 && errno != EPERM` at poll
`k`; the returned `Nat` counts the sleeps performed. -/
def waitStopGo (goneAt stoppedAt : Nat → Bool) (pid : Int) :
    Nat → Nat → Int → Option (Process_Status × Int × Nat)
  | 0, _, _ => none
  | fuel + 1, k, timeout =>
    if pid = 0 ∨ goneAt k then some (.stopped, timeout, k)
    else
      let rem := timeout - 100000
      if rem > 0 ∧ ¬ stoppedAt k then
        waitStopGo goneAt stoppedAt pid fuel (k + 1) rem
      else
        some (.started, rem, k + 1)

/-- `_waitStop` (`control.c`). -/
def _waitStop (goneAt stoppedAt : Nat → Bool) (pid : Int) (timeout : Int) :
    Option (Process_Status × Int × Nat) :=
  waitStopGo goneAt stoppedAt pid (timeout.toNat + 1) 0 timeout

/-- One `_commandExecute` call's external interactions (`control.c`):
`resolveFail` models `Command_new` throwing because the program is missing,
`spawnOk` whether `Command_execute` returned a process handle, `exitAt k`
the child state as seen by `Process_exitStatus` at poll `k` (modelled from
the spec: `some v` once the child has exited with status `v`, `-1` while it
is still running), `stoppedAt k` the `Run.stopped` flag, and `outChunk` the
first chunk read from the child's stderr-or-stdout (modelled from the spec:
stderr preferred, `none` when no output is available; a chunk read is
nonempty). -/
structure ExecCtx where
  resolveFail : Option String := none
  spawnOk : Bool := true
  exitAt : Nat → Option Nat := fun _ => none
  stoppedAt : Nat → Bool := fun _ => false
  outChunk : Option String := none

/-- The 100 ms polling loop of `_commandExecute` (`control.c`): sleep,
charge 100 ms to the timeout, read the exit status, and loop while the
child has not exited, timeout remains and no shutdown was requested.
Returns the last observed status, the remaining timeout and the number of
polls performed. -/
def execPollGo (exitAt : Nat → Option Nat) (stoppedAt : Nat → Bool) :
    Nat → Nat → Int → Option (Int × Int × Nat)
  | 0, _, _ => none
  | fuel + 1, k, timeout =>
    let rem := timeout - 100000
    let status : Int := match exitAt k with | some v => (v : Int) | none => -1
    if status < 0 ∧ rem > 0 ∧ ¬ stoppedAt k then
      execPollGo exitAt stoppedAt fuel (k + 1) rem
    else
      some (status, rem, k + 1)

/-- `_commandExecute` (`control.c`) for a command whose program name is `p`:
resolve the program, spawn it, poll every 100 ms, and assemble the message
buffer exactly as the C code does.  Returns the exit status (−1 if never
observed), the remaining timeout, and the message.  The environment-overlay
assembly has no effect on these outputs and is omitted. -/
def _commandExecute (ctx : ExecCtx) (p : String) (timeout : Int) :
    Option (Int × Int × String) :=
  match ctx.resolveFail with
  | some e => some (-1, timeout, "Program " ++ p ++ " failed: " ++ e)
  | none =>
    if ctx.spawnOk then
      match execPollGo ctx.exitAt ctx.stoppedAt (timeout.toNat + 1) 0 timeout with
      | none => none
      | some (status, rem, _) =>
        let tmsg := if rem ≤ 0 then "Program " ++ p ++ " timed out" else ""
        let msg := match ctx.outChunk with
          | some out => p ++ ": " ++ (if rem ≤ 0 then "Program timed out -- " else "") ++ out
          | none => tmsg
        some (status, rem, msg)
    else some (-1, timeout, "")

/-! ### Claim C2: the back-off interval sequence -/

/-- The value of `_waitStart`'s `wait` variable at the start of iteration
`k`. -/
def waitIter : Nat → Int
  | 0 => 50000
  | k + 1 => if waitIter k < 1000000 then waitIter k * 2 else 1000000

lemma waitIter_closed (k : Nat) :
    waitIter k = if k ≤ 5 then 50000 * 2 ^ k else 1000000 := by
  induction k with
  | zero => simp [waitIter]
  | succ k ih =>
      rw [waitIter, ih]
      by_cases h : k ≤ 5
      · rw [if_pos h]
        interval_cases k <;> norm_num
      · rw [if_neg h, if_neg (by omega : ¬ k + 1 ≤ 5)]
        norm_num

/-- Every run of the `_waitStart` loop sleeps exactly the deterministic
interval sequence `waitIter k, waitIter (k+1), …`, whatever the oracles and
the timeout. -/
lemma waitStartGo_sleeps (runningAt stoppedAt : Nat → Bool) :
    ∀ (fuel k : Nat) (timeout : Int) (acc : List Int) r,
      waitStartGo runningAt stoppedAt fuel k (waitIter k) timeout acc = some r →
      ∃ m, r.2.2 = acc ++ (List.range m).map (fun j => waitIter (k + j)) := by
  intro fuel
  induction fuel with
  | zero =>
      intro k timeout acc r h
      simp [waitStartGo] at h
  | succ f ih =>
    intro k timeout acc r h
    rw [waitStartGo] at h
    by_cases hr : runningAt k = true
    · rw [if_pos hr] at h
      have hr' : r = (.started, timeout, acc) := (Option.some.inj h).symm
      refine ⟨0, ?_⟩
      rw [hr', List.range_zero]
      simp
    · rw [if_neg (by simpa using hr)] at h
      simp only at h
      by_cases hc : timeout - waitIter k > 0 ∧ ¬ stoppedAt k = true
      · rw [if_pos hc] at h
        have hw : (if waitIter k < 1000000 then waitIter k * 2 else 1000000)
            = waitIter (k + 1) := rfl
        rw [hw] at h
        obtain ⟨m, hm⟩ := ih (k + 1) _ _ _ h
        refine ⟨m + 1, ?_⟩
        have key : List.map (fun j => waitIter (k + j)) (List.range (m + 1))
            = waitIter k :: List.map (fun j => waitIter (k + 1 + j)) (List.range m) := by
          rw [List.range_succ_eq_map, List.map_cons, List.map_map]
          refine congrArg₂ _ (by simp) ?_
          refine List.map_congr_left ?_
          intro x _
          show waitIter (k + (x + 1)) = waitIter (k + 1 + x)
          congr 1
          omega
        rw [hm, key, List.append_assoc, List.singleton_append]
      · rw [if_neg hc] at h
        have hr' : r = (.stopped, timeout - waitIter k, acc ++ [waitIter k]) :=
          (Option.some.inj h).symm
        refine ⟨1, ?_⟩
        rw [hr', List.range_succ, List.range_zero]
        simp

/-- C2 (amended): the sleep intervals of `_waitStart` form the sequence
50 ms, 100 ms, 200 ms, 400 ms, 800 ms, 1.6 s, 1 s, 1 s, …: each interval
doubles the previous one until the doubling overshoots the 1 s cap once
(1.6 s at the sixth interval), after which every interval is exactly 1 s. -/
theorem C2_waitStart_intervals (runningAt stoppedAt : Nat → Bool) (timeout : Int)
    (s : Process_Status) (rem : Int) (sleeps : List Int)
    (h : _waitStart runningAt stoppedAt timeout = some (s, rem, sleeps)) :
    ∀ i v, sleeps.get? i = some v →
      v = if i ≤ 5 then 50000 * 2 ^ i else 1000000 := by
  have h0 : waitIter 0 = 50000 := rfl
  unfold _waitStart at h
  rw [← h0] at h
  obtain ⟨m, hm⟩ := waitStartGo_sleeps runningAt stoppedAt _ 0 timeout [] _ h
  simp only at hm
  intro i v hiv
  rw [hm] at hiv
  simp only [List.nil_append, List.get?_map] at hiv
  rcases Nat.lt_or_ge i m with him | him
  · rw [List.get?_range him] at hiv
    simp only [Option.map_some'] at hiv
    have hv : waitIter (0 + i) = v := Option.some.inj hiv
    rw [← hv]
    simpa using waitIter_closed i
  · rw [List.get?_eq_none.mpr (by simpa using him)] at hiv
    simp at hiv

/-- C2, counterexample: with nothing ever running, no shutdown and a 5 s
timeout, the sixth sleep interval of `_waitStart` is 1.6 s — the claimed
sequence caps at 1 s from the sixth interval on, and claims no interval
ever exceeds 1 s. -/
theorem C2_interval_overshoot_cex :
    _waitStart (fun _ => false) (fun _ => false) 5000000
        = some (Process_Status.stopped, -150000,
            [50000, 100000, 200000, 400000, 800000, 1600000, 1000000, 1000000])
      ∧ ¬ ((1600000 : Int) ≤ 1000000) := by
  refine ⟨?_, ?_⟩ <;> decide

/-- Witness for C2 at the run above: its sixth interval is the closed-form
value `50000 * 2 ^ 5`. -/
theorem C2_waitStart_intervals_witness :
    [50000, 100000, 200000, 400000, 800000, (1600000 : Int), 1000000, 1000000].get? 5
        = some 1600000
      ∧ (1600000 : Int) = if 5 ≤ 5 then 50000 * 2 ^ 5 else 1000000 :=
  ⟨by decide,
   C2_waitStart_intervals (fun _ => false) (fun _ => false) 5000000
     Process_Status.stopped (-150000)
     [50000, 100000, 200000, 400000, 800000, 1600000, 1000000, 1000000]
     (by decide) 5 1600000 (by decide)⟩

/-! ### Claim C7: shutdown propagation in the wait loops -/

lemma waitIter_le (k : Nat) : waitIter k ≤ 1600000 := by
  rw [waitIter_closed]
  split
  · next h =>
      interval_cases k <;> norm_num
  · norm_num

lemma execPollGo_stop_bound (exitAt : Nat → Option Nat) (stoppedAt : Nat → Bool)
    (K : Nat) (hstop : ∀ i, K ≤ i → stoppedAt i = true) :
    ∀ (fuel k : Nat) (timeout : Int) s t m, k ≤ K →
      execPollGo exitAt stoppedAt fuel k timeout = some (s, t, m) →
      m ≤ K + 1 := by
  intro fuel
  induction fuel with
  | zero =>
      intro k timeout s t m _ h
      simp [execPollGo] at h
  | succ f ih =>
    intro k timeout s t m hkK h
    rw [execPollGo] at h
    split at h
    · next hcont =>
        have hk : k < K := by
          by_contra hge
          exact hcont.2.2 (hstop k (by omega))
        exact ih (k + 1) _ _ _ _ (by omega) h
    · next =>
        simp only [Option.some.injEq, Prod.mk.injEq] at h
        obtain ⟨-, -, hm⟩ := h
        omega

lemma waitStartGo_stop_bound (runningAt stoppedAt : Nat → Bool)
    (K : Nat) (hstop : ∀ i, K ≤ i → stoppedAt i = true) :
    ∀ (fuel k : Nat) (w timeout : Int) (acc : List Int) s t sl, k ≤ K →
      waitStartGo runningAt stoppedAt fuel k w timeout acc = some (s, t, sl) →
      sl.length ≤ acc.length + (K + 1 - k) := by
  intro fuel
  induction fuel with
  | zero =>
      intro k w timeout acc s t sl _ h
      simp [waitStartGo] at h
  | succ f ih =>
    intro k w timeout acc s t sl hkK h
    rw [waitStartGo] at h
    split at h
    · next =>
        simp only [Option.some.injEq, Prod.mk.injEq] at h
        obtain ⟨-, -, hsl⟩ := h
        rw [← hsl]
        omega
    · next =>
        simp only at h
        split at h
        · next hcont =>
            have hk : k < K := by
              by_contra hge
              exact hcont.2 (hstop k (by omega))
            have hb := ih (k + 1) _ _ _ _ _ _ (by omega) h
            have hlen : (acc ++ [w]).length = acc.length + 1 := by simp
            rw [hlen] at hb
            omega
        · next =>
            simp only [Option.some.injEq, Prod.mk.injEq] at h
            obtain ⟨-, -, hsl⟩ := h
            rw [← hsl]
            have hlen : (acc ++ [w]).length = acc.length + 1 := by simp
            rw [hlen]
            omega

lemma waitStopGo_stop_bound (goneAt stoppedAt : Nat → Bool) (pid : Int)
    (K : Nat) (hstop : ∀ i, K ≤ i → stoppedAt i = true) :
    ∀ (fuel k : Nat) (timeout : Int) s t m, k ≤ K →
      waitStopGo goneAt stoppedAt pid fuel k timeout = some (s, t, m) →
      m ≤ K + 1 := by
  intro fuel
  induction fuel with
  | zero =>
      intro k timeout s t m _ h
      simp [waitStopGo] at h
  | succ f ih =>
    intro k timeout s t m hkK h
    rw [waitStopGo] at h
    split at h
    · next =>
        simp only [Option.some.injEq, Prod.mk.injEq] at h
        obtain ⟨-, -, hm⟩ := h
        omega
    · next =>
        simp only at h
        split at h
        · next hcont =>
            have hk : k < K := by
              by_contra hge
              exact hcont.2 (hstop k (by omega))
            exact ih (k + 1) _ _ _ _ (by omega) h
        · next =>
            simp only [Option.some.injEq, Prod.mk.injEq] at h
            obtain ⟨-, -, hm⟩ := h
            omega

/-- C7 (amended): each of the three wait loops tests `Run.stopped` on every
iteration, so once `Run.stopped` is set (from poll index `K` on) the loop
performs at most `K + 1` iterations — it terminates within one polling
quantum.  The quantum is 100 ms for the command executor's poll and for
`_waitStop`; for `_waitStart`'s back-off poll it is the current back-off
interval, which can reach 1.6 s (never more). -/
theorem C7_shutdown_bound (exitAt : Nat → Option Nat)
    (runningAt goneAt stoppedAt : Nat → Bool) (pid T1 T2 T3 : Int) (K : Nat)
    (hstop : ∀ i, K ≤ i → stoppedAt i = true) :
    (∀ s t m, execPollGo exitAt stoppedAt (T1.toNat + 1) 0 T1 = some (s, t, m) →
        m ≤ K + 1) ∧
    (∀ s t sl, _waitStart runningAt stoppedAt T2 = some (s, t, sl) →
        sl.length ≤ K + 1 ∧ ∀ v ∈ sl, v ≤ 1600000) ∧
    (∀ s t m, _waitStop goneAt stoppedAt pid T3 = some (s, t, m) →
        m ≤ K + 1) := by
  refine ⟨?_, ?_, ?_⟩
  · intro s t m h
    exact execPollGo_stop_bound exitAt stoppedAt K hstop _ 0 T1 s t m (by omega) h
  · intro s t sl h
    constructor
    · have := waitStartGo_stop_bound runningAt stoppedAt K hstop _ 0 50000 T2 [] s t sl
        (by omega) h
      simp only [List.length_nil] at this
      omega
    · intro v hv
      have h0 : waitIter 0 = 50000 := rfl
      unfold _waitStart at h
      rw [← h0] at h
      obtain ⟨m, hm⟩ := waitStartGo_sleeps runningAt stoppedAt _ 0 T2 [] _ h
      simp only at hm
      rw [hm] at hv
      simp only [List.nil_append, List.mem_map] at hv
      obtain ⟨j, -, hj⟩ := hv
      rw [← hj]
      exact waitIter_le _
  · intro s t m h
    exact waitStopGo_stop_bound goneAt stoppedAt pid K hstop _ 0 T3 s t m (by omega) h

/-- Witness for C7: a shutdown requested from poll index 5 on bounds all
three loops' iteration counts, instantiated on concrete runs. -/
theorem C7_shutdown_bound_witness :
    ((1 : Nat) ≤ 5 + 1) ∧
      (([50000, 100000, 200000, 400000, 800000, (1600000 : Int)].length ≤ 5 + 1)
        ∧ ((1600000 : Int) ≤ 1600000)) ∧
      ((0 : Nat) ≤ 5 + 1) := by
  have H := C7_shutdown_bound (fun _ => none) (fun _ => false) (fun _ => false)
    (fun i => decide (5 ≤ i)) 0 100000 5000000 300000 5
    (fun i hi => by simp [hi])
  refine ⟨H.1 (-1) 0 1 (by decide), ⟨?_, ?_⟩,
    H.2.2 Process_Status.stopped 300000 0 (by decide)⟩
  · exact (H.2.1 Process_Status.stopped 1850000
      [50000, 100000, 200000, 400000, 800000, 1600000] (by decide)).1
  · exact (H.2.1 Process_Status.stopped 1850000
      [50000, 100000, 200000, 400000, 800000, 1600000] (by decide)).2 1600000 (by decide)

/-- C7, counterexample: with shutdown requested from iteration 5 on, the
`_waitStart` loop's final iteration — the one in which `Run.stopped` is
observed — still sleeps 1.6 s, exceeding the claimed 1 s polling quantum. -/
theorem C7_overlong_quantum_cex :
    _waitStart (fun _ => false) (fun i => decide (5 ≤ i)) 5000000
        = some (Process_Status.stopped, 1850000,
            [50000, 100000, 200000, 400000, 800000, 1600000])
      ∧ ¬ ((1600000 : Int) ≤ 1000000) := by
  refine ⟨?_, ?_⟩ <;> decide

/-! ### Claim C6: the command executor's poll loop and message -/

lemma execPollGo_spec (exitAt : Nat → Option Nat) (stoppedAt : Nat → Bool) (T : Int) :
    ∀ (fuel k : Nat) s t m,
      execPollGo exitAt stoppedAt fuel k (T - 100000 * k) = some (s, t, m) →
      k < m ∧ t = T - 100000 * m ∧
      (∀ j, k ≤ j → j + 1 < m →
        exitAt j = none ∧ T - 100000 * (j + 1) > 0 ∧ stoppedAt j = false) ∧
      ((exitAt (m - 1)).isSome ∨ T - 100000 * m ≤ 0 ∨ stoppedAt (m - 1) = true) ∧
      s = (match exitAt (m - 1) with | some v => (v : Int) | none => -1) := by
  intro fuel
  induction fuel with
  | zero =>
      intro k s t m h
      simp [execPollGo] at h
  | succ f ih =>
    intro k s t m h
    rw [execPollGo] at h
    have hrem : T - 100000 * k - 100000 = T - 100000 * (k + 1) := by ring
    split at h
    · next hcont =>
        rw [hrem] at h
        obtain ⟨h1, h2, h3, h4, h5⟩ := ih (k + 1) s t m h
        have hxk : exitAt k = none := by
          cases hx : exitAt k with
          | none => rfl
          | some v =>
              rw [hx] at hcont
              have hlt0 := hcont.1
              simp at hlt0
              omega
        refine ⟨by omega, h2, ?_, h4, h5⟩
        intro j hkj hjm
        rcases Nat.eq_or_lt_of_le hkj with rfl | hlt
        · refine ⟨hxk, ?_, ?_⟩
          · rw [← hrem]
            exact hcont.2.1
          · cases hb : stoppedAt k with
            | false => rfl
            | true => exact absurd hb hcont.2.2
        · exact h3 j (by omega) hjm
    · next hcont =>
        simp only [Option.some.injEq, Prod.mk.injEq] at h
        obtain ⟨hs, ht, hm⟩ := h
        subst hm
        have hm1 : k + 1 - 1 = k := by omega
        rw [hm1]
        push_neg at hcont
        refine ⟨by omega, by rw [← ht]; exact hrem, by intro j hj1 hj2; omega, ?_, hs.symm⟩
        by_cases hx : (exitAt k).isSome
        · exact Or.inl hx
        · have hxn : exitAt k = none := Option.not_isSome_iff_eq_none.mp hx
          have hstat : (match exitAt k with
              | some v => (v : Int) | none => -1) < 0 := by
            rw [hxn]
            norm_num
          by_cases hr : T - 100000 * (k + 1) ≤ 0
          · exact Or.inr (Or.inl hr)
          · refine Or.inr (Or.inr ?_)
            exact hcont hstat (by rw [hrem]; omega)

/-- C6 (amended): when the program resolves and spawns, `_commandExecute`
polls every 100 ms charging 100 ms per poll to the timeout (after `m` polls
the remaining timeout is `T − 100000·m`), the loop runs exactly until the
first poll that observes an exit, exhausts the timeout, or sees the shutdown
flag, the returned status is the child's exit status (−1 if never observed),
and on timeout the message is `"Program <p> timed out"`, replaced by
`"<p>: Program timed out -- <output>"` when child output is available. -/
theorem C6_commandExecute_spec (ctx : ExecCtx) (p : String) (T : Int)
    (hres : ctx.resolveFail = none) (hspawn : ctx.spawnOk = true)
    (s t : Int) (msg : String) (h : _commandExecute ctx p T = some (s, t, msg)) :
    ∃ m : Nat, 1 ≤ m ∧ t = T - 100000 * m ∧
      (∀ j, j + 1 < m →
        ctx.exitAt j = none ∧ T - 100000 * (j + 1) > 0 ∧ ctx.stoppedAt j = false) ∧
      ((ctx.exitAt (m - 1)).isSome ∨ t ≤ 0 ∨ ctx.stoppedAt (m - 1) = true) ∧
      s = (match ctx.exitAt (m - 1) with | some v => (v : Int) | none => -1) ∧
      msg = (match ctx.outChunk with
             | some out => p ++ ": " ++ (if t ≤ 0 then "Program timed out -- " else "") ++ out
             | none => if t ≤ 0 then "Program " ++ p ++ " timed out" else "") := by
  unfold _commandExecute at h
  rw [hres] at h
  simp only [hspawn, if_true] at h
  rcases hpoll : execPollGo ctx.exitAt ctx.stoppedAt (T.toNat + 1) 0 T with _ | ⟨st, rem, m⟩
  · rw [hpoll] at h
    simp at h
  · rw [hpoll] at h
    simp only [Option.some.injEq, Prod.mk.injEq] at h
    obtain ⟨hs, ht, hmsg⟩ := h
    have hT0 : T - 100000 * (0 : Nat) = T := by norm_num
    rw [← hT0] at hpoll
    obtain ⟨h1, h2, h3, h4, h5⟩ := execPollGo_spec ctx.exitAt ctx.stoppedAt T _ 0 st rem m hpoll
    have htm : t = T - 100000 * m := by
      rw [← ht]
      exact h2
    refine ⟨m, by omega, htm, ?_, ?_, ?_, ?_⟩
    · intro j hj
      exact h3 j (by omega) hj
    · rw [htm]
      exact h4
    · rw [← hs]
      exact h5
    · rw [← hmsg, ← ht]

/-- Witness for C6: a child that exits with status 2 at the fourth poll of a
10 s timeout. -/
theorem C6_commandExecute_spec_witness :
    ((⟨none, true, fun k => if k < 3 then none else some 2,
        fun _ => false, none⟩ : ExecCtx).resolveFail = none)
      ∧ ((⟨none, true, fun k => if k < 3 then none else some 2,
            fun _ => false, none⟩ : ExecCtx).spawnOk = true)
      ∧ (_commandExecute
          ⟨none, true, fun k => if k < 3 then none else some 2, fun _ => false, none⟩
          "/bin/x" 10000000 = some (2, 9600000, ""))
      ∧ ∃ m : Nat, 1 ≤ m ∧ (9600000 : Int) = 10000000 - 100000 * m ∧
          (∀ j, j + 1 < m →
            (if j < 3 then (none : Option Nat) else some 2) = none ∧
              (10000000 : Int) - 100000 * (j + 1) > 0 ∧ false = false) ∧
          ((if m - 1 < 3 then (none : Option Nat) else some 2).isSome
              ∨ (9600000 : Int) ≤ 0 ∨ false = true) ∧
          (2 : Int) = (match (if m - 1 < 3 then (none : Option Nat) else some 2) with
                       | some v => (v : Int) | none => -1) ∧
          ("" : String) = (match (none : Option String) with
                 | some out => "/bin/x" ++ ": "
                     ++ (if (9600000 : Int) ≤ 0 then "Program timed out -- " else "") ++ out
                 | none => if (9600000 : Int) ≤ 0 then "Program /bin/x timed out" else "") :=
  ⟨rfl, rfl, by decide,
   C6_commandExecute_spec
     ⟨none, true, fun k => if k < 3 then none else some 2, fun _ => false, none⟩
     "/bin/x" 10000000 rfl rfl 2 9600000 "" (by decide)⟩

/-- C6, counterexample: on timeout with child output available the code
prefixes the message with the program name — the message is
`"<p>: Program timed out -- <output>"`, not the claimed
`"Program timed out -- <output>"`. -/
theorem C6_message_prefix_cex :
    _commandExecute ⟨none, true, fun _ => none, fun _ => false, some "no response"⟩
        "/bin/foo" 100000
        = some (-1, 0, "/bin/foo: Program timed out -- no response")
      ∧ "/bin/foo: Program timed out -- no response" ≠ "Program timed out -- no response" := by
  refine ⟨?_, ?_⟩ <;> decide

/-! ## The dependency-aware action dispatcher of `control.c` -/

/-- `Service_Type` (monit.h), as consumed by `control.c`. -/
inductive Service_Type
  | filesystem | directory | file | process | host | system | fifo | program | network
deriving DecidableEq, Repr

/-- `Monitor_State` (monit.h): the monitoring enablement state. -/
inductive Monitor_State
  | not | yes | init | waiting
deriving DecidableEq, Repr

/-- `Action_Type` (monit.h): the dispatcher handles the five service
actions; everything else falls into `control_service`'s default case. -/
inductive Action_Type
  | ignored | alert | exec | start | stop | restart | monitor | unmonitor
deriving DecidableEq, Repr

/-- A command descriptor (`command_t`): argument vector, optional uid/gid
drop, and timeout in seconds. -/
structure command_t where
  arg : List String := []
  has_uid : Bool := false
  uid : Int := 0
  has_gid : Bool := false
  gid : Int := 0
  timeout : Int := 0
deriving DecidableEq, Repr

/-- A service node of the intrusive `servicelist` (monit.h), restricted to
the fields `control.c` reads or writes.  `dependantlist` holds the names of
the services this one depends on. -/
structure Service_T where
  name : String
  stype : Service_Type := .process
  start : Option command_t := none
  stop : Option command_t := none
  restart : Option command_t := none
  dependantlist : List String := []
  monitor : Monitor_State := .yes
  visited : Bool := false
  depend_visited : Bool := false
deriving DecidableEq, Repr

/-- Which of a service's command descriptors a trace entry refers to. -/
inductive CmdKind
  | start | stop | restart
deriving DecidableEq, Repr

/-- Observable steps of one action batch: command executions, posted events
(`Event_post` with state Succeeded or Failed), and `_doStart`'s traversal
steps (`visitStart` when the visited mark is taken, `act` when the
start-service step is reached). -/
inductive TraceItem
  | exec (service : String) (kind : CmdKind)
  | ev (service : String) (succeeded : Bool) (message : String)
  | visitStart (service : String)
  | act (service : String)
deriving DecidableEq, Repr

/-- The oracle streams of one action batch.  `probe k nm` is the result of
the `k`-th `Util_isProcessRunning` call (modelled from the spec, util.c not
being under `src/`: the pid when the service's process is alive, else 0);
`stopped`/`gone` drive the wait loops; `exec j` is the context of the
`j`-th `_commandExecute` call. -/
structure Env where
  probe : Nat → String → Int
  stopped : Nat → Bool
  gone : Nat → Bool
  exec : Nat → ExecCtx

/-- The dispatcher state: monit's `servicelist` plus the observable trace
and cursors into the oracle streams. -/
structure St where
  services : List Service_T
  trace : List TraceItem := []
  pclock : Nat := 0
  wclock : Nat := 0
  ecount : Nat := 0

/-- Modelled from the spec: `Util_getService` (util.c) finds the service
with the given (unique) name. -/
def Util_getService (l : List Service_T) (name : String) : Option Service_T :=
  l.find? (fun s => s.name == name)

/-- Update the (unique) service with the given name. -/
def updateService (l : List Service_T) (name : String)
    (f : Service_T → Service_T) : List Service_T :=
  l.map (fun s => if s.name == name then f s else s)

/-- Modelled from the spec: `Util_isProcessRunning` (util.c), the
is-service-running probe, answered from the oracle stream. -/
def Util_isProcessRunning (env : Env) (st : St) (name : String) : Int × St :=
  (env.probe st.pclock name, {st with pclock := st.pclock + 1})

/-- Modelled from the spec: `Util_monitorSet` (util.c) enables monitoring:
`monitor` goes from `Not` to `Init`, anything else is kept. -/
def Util_monitorSet (st : St) (name : String) : St :=
  let f := fun s => if s.monitor = .not then {s with monitor := .init} else s
  {st with services := updateService st.services name f}

/-- Modelled from the spec: `Util_monitorUnset` (util.c) disables
monitoring: `monitor` becomes `Not`. -/
def Util_monitorUnset (st : St) (name : String) : St :=
  let f := fun s => {s with monitor := .not}
  {st with services := updateService st.services name f}

/-- Modelled from the spec: `Util_resetInfo` (util.c) clears the sampled
`info` record, which lies outside this model; no modelled field changes. -/
def Util_resetInfo (st : St) (_name : String) : St := st

/-- `Event_post` (event.c is external): record the event in the trace. -/
def Event_post (st : St) (name : String) (ok : Bool) (msg : String) : St :=
  {st with trace := st.trace ++ [.ev name ok msg]}

/-- Run `_commandExecute` on service `name`'s command `c` of kind `kind`,
drawing the call's context from the environment and recording the execution
in the trace. -/
def runCommand (env : Env) (st : St) (name : String) (kind : CmdKind)
    (c : command_t) : Option (Int × Int × String × St) :=
  match _commandExecute (env.exec st.ecount) (c.arg.headD "") (c.timeout * 1000000) with
  | none => none
  | some (status, rem, msg) =>
      some (status, rem, msg,
        {st with ecount := st.ecount + 1, trace := st.trace ++ [.exec name kind]})

/-- `_waitStart` as called from the dispatcher: the running probe and the
`Run.stopped` flag are drawn from the oracle streams at the state's
cursors. -/
def waitStartM (env : Env) (st : St) (name : String) (timeout : Int) :
    Option (Process_Status × Int × St) :=
  match _waitStart (fun i => env.probe (st.pclock + i) name != 0)
      (fun i => env.stopped (st.wclock + i)) timeout with
  | none => none
  | some (ps, rem, sleeps) =>
      some (ps, rem, {st with pclock := st.pclock + sleeps.length + 1,
                              wclock := st.wclock + sleeps.length})

/-- `_waitStop` as called from the dispatcher. -/
def waitStopM (env : Env) (st : St) (pid : Int) (timeout : Int) :
    Option (Process_Status × Int × St) :=
  match _waitStop (fun i => env.gone (st.wclock + i))
      (fun i => env.stopped (st.wclock + i)) pid timeout with
  | none => none
  | some (ps, rem, polls) =>
      some (ps, rem, {st with wclock := st.wclock + polls})

/-- The stop-command block of `_doStop` (lines 224-240 of `control.c`):
when a stop command is defined and the service is not an already-stopped
Process service, execute it, wait for the pid to disappear for Process
services, post the event, and report whether the service counts as
stopped. -/
def stopService (env : Env) (s : Service_T) (name : String) (st : St) :
    Option (Bool × St) :=
  match s.stop with
  | some c =>
    -- if (s->type != Process || Util_isProcessRunning(s, false))
    let (pr, st1) :=
      if s.stype = .process then Util_isProcessRunning env st name
      else (1, st)
    if s.stype ≠ .process ∨ pr ≠ 0 then
      let (pid, st2) := Util_isProcessRunning env st1 name
      match runCommand env st2 name .stop c with
      | none => none
      | some (status, rem, msg, st3) =>
        -- if ((s->type == Process && _waitStop(pid, &timeout) != Process_Stopped)
        --     || status < 0)
        let stopRes : Option (Process_Status × St) :=
          if s.stype = .process then
            match waitStopM env st3 pid rem with
            | none => none
            | some (ps, _, st4) => some (ps, st4)
          else some (.stopped, st3)
        match stopRes with
        | none => none
        | some (ps, st4) =>
          if (s.stype = .process ∧ ps ≠ .stopped) ∨ status < 0 then
            some (false, Event_post st4 name false
              ("failed to stop (exit status " ++ toString status ++ ") -- "
                ++ (if msg = "" then "no output" else msg)))
          else
            some (true, Event_post st4 name true "stopped")
    else some (true, st1)
  | none => some (true, st)

/-- `_doStop` (`control.c`): stop the service; `flag` tells whether
monitoring should be disabled afterwards (true) or only the sampled info
reset (false, when the stop is part of a restart).  Returns whether the
service counts as stopped. -/
def _doStop (env : Env) (name : String) (flag : Bool) (st : St) :
    Option (Bool × St) :=
  match Util_getService st.services name with
  | none => none
  | some s =>
    if s.depend_visited then some (true, st)
    else
      let mark := fun x => {x with depend_visited := true}
      let st := {st with services := updateService st.services name mark}
      match stopService env s name st with
      | none => none
      | some (rv, st') =>
          some (rv, if flag then Util_monitorUnset st' name else Util_resetInfo st' name)

/-- The start-service step of `_doStart` (lines 194-208 of `control.c`):
when a start command is defined and the service is not an already-running
Process service, execute it, converge with `_waitStart` for Process
services, and post the Succeeded or Failed event. -/
def startService (env : Env) (s : Service_T) (name : String) (st : St) : Option St :=
  match s.start with
  | some c =>
    -- if (s->type != Service_Process || ! Util_isProcessRunning(s, false))
    let (pr, st4) :=
      if s.stype = .process then Util_isProcessRunning env st name
      else (0, st)
    if s.stype ≠ .process ∨ pr = 0 then
      match runCommand env st4 name .start c with
      | none => none
      | some (status, rem, msg, st5) =>
        -- if ((s->type == Service_Process && _waitStart(s, &timeout) != Started)
        --     || status < 0)
        let startRes : Option (Process_Status × St) :=
          if s.stype = .process then
            match waitStartM env st5 name rem with
            | none => none
            | some (ps, _, st6) => some (ps, st6)
          else some (.started, st5)
        match startRes with
        | none => none
        | some (ps, st6) =>
          if (s.stype = .process ∧ ps ≠ .started) ∨ status < 0 then
            some (Event_post st6 name false
              ("failed to start (exit status " ++ toString status ++ ") -- "
                ++ (if msg = "" then "no output" else msg)))
          else some (Event_post st6 name true "started")
    else some st4
  | none => some st

/-- The worklist form of `_doStart` (`control.c`): process the names in
order; for an unvisited service, mark it, recurse post-order into its
dependants, then run the start step and enable monitoring.  Recursion is
bounded by `fuel` (each step consumes one unit); `none` models a missing
dependant (the `ASSERT(parent)`), a failed inner call, or exhausted fuel. -/
def doStartAux (env : Env) : Nat → List String → St → Option St
  | 0, _, _ => none
  | _ + 1, [], st => some st
  | fuel + 1, name :: rest, st =>
    match Util_getService st.services name with
    | none => none
    | some s =>
      if s.visited then doStartAux env fuel rest st
      else
        let mark := fun x => {x with visited := true}
        let st1 := {st with services := updateService st.services name mark,
                            trace := st.trace ++ [TraceItem.visitStart name]}
        match doStartAux env fuel s.dependantlist st1 with
        | none => none
        | some st2 =>
          -- the start step (lines 194-208)
          let st3 := {st2 with trace := st2.trace ++ [TraceItem.act name]}
          match startService env s name st3 with
          | none => none
          | some st8 => doStartAux env fuel rest (Util_monitorSet st8 name)

/-- `_doStart` (`control.c`). -/
def _doStart (env : Env) (fuel : Nat) (name : String) (st : St) : Option St :=
  doStartAux env fuel [name] st

/-- The worklist form of `_doMonitor` (`control.c`): post-order enabling of
monitoring over the dependants. -/
def doMonitorAux : Nat → List String → St → Option St
  | 0, _, _ => none
  | _ + 1, [], st => some st
  | fuel + 1, name :: rest, st =>
    match Util_getService st.services name with
    | none => none
    | some s =>
      if s.visited then doMonitorAux fuel rest st
      else
        let mark := fun x => {x with visited := true}
        let st1 := {st with services := updateService st.services name mark}
        match doMonitorAux fuel s.dependantlist st1 with
        | none => none
        | some st2 => doMonitorAux fuel rest (Util_monitorSet st2 name)

/-- `_doMonitor` (`control.c`). -/
def _doMonitor (fuel : Nat) (name : String) (st : St) : Option St :=
  doMonitorAux fuel [name] st

/-- `_doUnmonitor` (`control.c`). -/
def _doUnmonitor (name : String) (st : St) : Option St :=
  match Util_getService st.services name with
  | none => none
  | some s =>
    if s.depend_visited then some st
    else
      let mark := fun x => {x with depend_visited := true}
      let st1 := {st with services := updateService st.services name mark}
      some (Util_monitorUnset st1 name)

/-- `_doRestart` (`control.c`): run the restart command when it is defined,
then enable monitoring. -/
def _doRestart (env : Env) (name : String) (st : St) : Option St :=
  match Util_getService st.services name with
  | none => none
  | some s =>
    let next : Option St :=
      match s.restart with
      | some c =>
        let st0 := Util_resetInfo st name
        match runCommand env st0 name .restart c with
        | none => none
        | some (status, rem, msg, st1) =>
          let startRes : Option (Process_Status × St) :=
            if s.stype = .process then
              match waitStartM env st1 name rem with
              | none => none
              | some (ps, _, st2) => some (ps, st2)
            else some (.started, st1)
          match startRes with
          | none => none
          | some (ps, st2) =>
            if (s.stype = .process ∧ ps ≠ .started) ∨ status < 0 then
              some (Event_post st2 name false
                ("failed to restart (exit status " ++ toString status ++ ") -- " ++ msg))
            else some (Event_post st2 name true "restarted")
      | none => some st
    match next with
    | none => none
    | some st' => some (Util_monitorSet st' name)

/-- The worklist form of `_doDepend` (`control.c`): walk the service list;
every service naming `name` among its dependants is acted on — `Start` and
`Monitor` before the recursive descent, `Stop` and `Unmonitor` after it. -/
def doDependAux (env : Env) : Nat → List String → String → Action_Type → Bool → St →
    Option St
  | 0, _, _, _, _, _ => none
  | _ + 1, [], _, _, _, st => some st
  | fuel + 1, cname :: rest, name, action, flag, st =>
    match Util_getService st.services cname with
    | none => none
    | some child =>
      if name ∈ child.dependantlist then
        let step1 : Option St :=
          if action = .start then _doStart env fuel cname st
          else if action = .monitor then _doMonitor fuel cname st
          else some st
        match step1 with
        | none => none
        | some st1 =>
          match doDependAux env fuel (st1.services.map (fun x => x.name))
              cname action flag st1 with
          | none => none
          | some st2 =>
            let step3 : Option St :=
              if action = .stop then
                match _doStop env cname flag st2 with
                | none => none
                | some (_, st3) => some st3
              else if action = .unmonitor then _doUnmonitor cname st2
              else some st2
            match step3 with
            | none => none
            | some st3 => doDependAux env fuel rest name action flag st3
      else doDependAux env fuel rest name action flag st

/-- `_doDepend` (`control.c`). -/
def _doDepend (env : Env) (fuel : Nat) (name : String) (action : Action_Type)
    (flag : Bool) (st : St) : Option St :=
  doDependAux env fuel (st.services.map (fun x => x.name)) name action flag st

/-- `reset_depend` (`control.c`): one sweep clearing both traversal marks. -/
def reset_depend (st : St) : St :=
  let clear := fun s => {s with visited := false, depend_visited := false}
  {st with services := st.services.map clear}

/-- `control_service` (`control.c`): the dispatcher's public entry point;
`false` when the service does not exist or the action is not one of the
five service actions.  The traversal fuel `2·|services| + 2` covers any
acyclic dependency graph. -/
def control_service (env : Env) (st : St) (S : String) (A : Action_Type) :
    Option (Bool × St) :=
  match Util_getService st.services S with
  | none => some (false, st)
  | some s =>
    let fuel := 2 * st.services.length + 2
    match A with
    | .start => do
        let st1 ← _doDepend env fuel S .stop false st
        let st2 ← _doStart env fuel S st1
        let st3 ← _doDepend env fuel S .start false st2
        some (true, st3)
    | .stop => do
        let st1 ← _doDepend env fuel S .stop true st
        let (_, st2) ← _doStop env S true st1
        some (true, st2)
    | .restart => do
        let st1 ← _doDepend env fuel S .stop false st
        match s.restart with
        | some _ => do
            let st2 ← _doRestart env S st1
            let st3 ← _doDepend env fuel S .start false st2
            some (true, st3)
        | none => do
            let (ok, st2) ← _doStop env S false st1
            if ok then do
              -- Only start if stop succeeded
              let st3 ← _doStart env fuel S st2
              let st4 ← _doDepend env fuel S .start false st3
              some (true, st4)
            else
              -- enable monitoring again to allow the restart retry next cycle
              some (true, Util_monitorSet st2 S)
    | .monitor => do
        let st1 ← _doMonitor fuel S st
        some (true, st1)
    | .unmonitor => do
        let st1 ← _doDepend env fuel S .unmonitor false st
        let st2 ← _doUnmonitor S st1
        some (true, st2)
    | _ => some (false, st)

/-- Modelled from the spec: the dispatcher's callers (validate.c and the
HTTP handler, not under `src/`) end every action batch by calling
`reset_depend` — "After each action batch the dispatcher resets both
visited marks." -/
def actionBatch (env : Env) (st : St) (S : String) (A : Action_Type) :
    Option (Bool × St) :=
  match control_service env st S A with
  | none => none
  | some (b, st') => some (b, reset_depend st')

/-! ### Infrastructure for reasoning about the dispatcher -/

lemma getService_mem {l : List Service_T} {x : String} {s : Service_T}
    (h : Util_getService l x = some s) : s ∈ l ∧ s.name = x := by
  refine ⟨List.mem_of_find?_eq_some h, ?_⟩
  have := List.find?_some h
  simpa using this

/-- The static fields of a service: everything except the traversal marks
and the monitor state. -/
def staticPart (s : Service_T) : String × Service_Type × Option command_t ×
    Option command_t × Option command_t × List String :=
  (s.name, s.stype, s.start, s.stop, s.restart, s.dependantlist)

/-- Two service lists agree on all static fields. -/
def staticEq (l l' : List Service_T) : Prop :=
  l.map staticPart = l'.map staticPart

lemma staticEq_refl (l : List Service_T) : staticEq l l := rfl

lemma staticEq_trans {a b c : List Service_T} (h1 : staticEq a b) (h2 : staticEq b c) :
    staticEq a c := h1.trans h2

lemma staticEq_update {l : List Service_T} {name : String} {f : Service_T → Service_T}
    (hf : ∀ s, staticPart (f s) = staticPart s) :
    staticEq l (updateService l name f) := by
  unfold staticEq updateService
  rw [List.map_map]
  refine List.map_congr_left ?_
  intro s _
  show staticPart s = staticPart (if s.name == name then f s else s)
  by_cases h : s.name == name
  · rw [if_pos h, hf]
  · rw [if_neg h]

lemma staticEq_getService {l l' : List Service_T} (h : staticEq l l') (x : String) :
    Option.map staticPart (Util_getService l x) = Option.map staticPart (Util_getService l' x) := by
  induction l generalizing l' with
  | nil =>
      cases l' with
      | nil => rfl
      | cons b l' => exact absurd h (by simp [staticEq])
  | cons a l ih =>
      cases l' with
      | nil => exact absurd h (by simp [staticEq])
      | cons b l' =>
          unfold staticEq at h
          simp only [List.map_cons, List.cons.injEq] at h
          obtain ⟨hab, hrest⟩ := h
          have hname : a.name = b.name := congrArg Prod.fst hab
          unfold Util_getService
          simp only [List.find?_cons]
          by_cases hx : a.name == x
          · rw [hname] at hx
            rw [hname]
            simp only [hx]
            simp [hab]
          · rw [hname] at hx
            rw [hname]
            simp only [hx]
            exact ih hrest

lemma staticEq_names {l l' : List Service_T} (h : staticEq l l') :
    l.map (fun s => s.name) = l'.map (fun s => s.name) := by
  have : (l.map staticPart).map Prod.fst = (l'.map staticPart).map Prod.fst := by rw [h]
  simpa [List.map_map, Function.comp] using this

/-- The visited mark of a named service (false when absent). -/
def visitedOf (st : St) (x : String) : Bool :=
  ((Util_getService st.services x).map (fun s => s.visited)).getD false

/-- The depend_visited mark of a named service (false when absent). -/
def dependOf (st : St) (x : String) : Bool :=
  ((Util_getService st.services x).map (fun s => s.depend_visited)).getD false

/-- The monitor state of a named service. -/
def monitorOf (st : St) (x : String) : Option Monitor_State :=
  (Util_getService st.services x).map (fun s => s.monitor)

lemma getService_update {l : List Service_T} {name x : String} {f : Service_T → Service_T}
    (hf : ∀ s, (f s).name = s.name) :
    Util_getService (updateService l name f) x
      = Option.map (fun s => if s.name == name then f s else s) (Util_getService l x) := by
  induction l with
  | nil => rfl
  | cons a l ih =>
      unfold updateService Util_getService at *
      simp only [List.map_cons, List.find?_cons]
      by_cases hx : a.name == x
      · have hx2 : (if a.name == name then f a else a).name == x := by
          by_cases hn : a.name == name
          · rw [if_pos hn]
            rw [hf a] at *
            exact hx
          · rw [if_neg hn]
            exact hx
        simp only [hx2, hx]
        rfl
      · have hx2 : ((if a.name == name then f a else a).name == x) = false := by
          by_cases hn : a.name == name
          · rw [if_pos hn, hf a]
            simpa using hx
          · rw [if_neg hn]
            simpa using hx
        simp only [hx2, Bool.false_eq_true, if_false]
        simp only [hx]
        exact ih

lemma getService_update_other {l : List Service_T} {name x : String}
    {f : Service_T → Service_T} (hname : ∀ s, (f s).name = s.name) (hx : x ≠ name) :
    Util_getService (updateService l name f) x = Util_getService l x := by
  rw [getService_update hname]
  cases hg : Util_getService l x with
  | none => rfl
  | some s =>
      have hs := (getService_mem hg).2
      have hne : ¬ ((s.name == name) = true) := by
        rw [hs]
        simpa using hx
      simp only [Option.map_some']
      rw [if_neg hne]

lemma getService_update_self {l : List Service_T} {name : String}
    {f : Service_T → Service_T} (hname : ∀ s, (f s).name = s.name) :
    Util_getService (updateService l name f) name
      = Option.map f (Util_getService l name) := by
  rw [getService_update hname]
  cases hg : Util_getService l name with
  | none => rfl
  | some s =>
      have hs := (getService_mem hg).2
      simp [hs]

lemma visitedOf_services_update {st st' : St} {n : String} {f : Service_T → Service_T}
    (hs : st'.services = updateService st.services n f)
    (hname : ∀ s, (f s).name = s.name) (hv : ∀ s, (f s).visited = s.visited) :
    ∀ x, visitedOf st' x = visitedOf st x := by
  intro x
  unfold visitedOf
  rw [hs]
  by_cases hx : x = n
  · subst hx
    rw [getService_update_self hname]
    cases Util_getService st.services x with
    | none => rfl
    | some s => simp [hv]
  · rw [getService_update_other hname hx]

lemma dependOf_services_update {st st' : St} {n : String} {f : Service_T → Service_T}
    (hs : st'.services = updateService st.services n f)
    (hname : ∀ s, (f s).name = s.name)
    (hv : ∀ s, (f s).depend_visited = s.depend_visited) :
    ∀ x, dependOf st' x = dependOf st x := by
  intro x
  unfold dependOf
  rw [hs]
  by_cases hx : x = n
  · subst hx
    rw [getService_update_self hname]
    cases Util_getService st.services x with
    | none => rfl
    | some s => simp [hv]
  · rw [getService_update_other hname hx]

/-- State evolution along the dispatcher: the trace only grows, static
service fields never change, and the traversal marks are only ever set. -/
def Extends (st st' : St) : Prop :=
  (∃ Δ, st'.trace = st.trace ++ Δ) ∧
  staticEq st.services st'.services ∧
  (∀ x, visitedOf st x = true → visitedOf st' x = true) ∧
  (∀ x, dependOf st x = true → dependOf st' x = true)

lemma Extends.rfl (st : St) : Extends st st :=
  ⟨⟨[], by simp⟩, staticEq_refl _, fun _ h => h, fun _ h => h⟩

lemma Extends.trans {a b c : St} (h1 : Extends a b) (h2 : Extends b c) : Extends a c := by
  obtain ⟨⟨d1, hd1⟩, hs1, hv1, hd1'⟩ := h1
  obtain ⟨⟨d2, hd2⟩, hs2, hv2, hd2'⟩ := h2
  exact ⟨⟨d1 ++ d2, by rw [hd2, hd1, List.append_assoc]⟩, staticEq_trans hs1 hs2,
    fun x h => hv2 x (hv1 x h), fun x h => hd2' x (hd1' x h)⟩

lemma Extends.mem_trace {a b : St} {it : TraceItem} (h : Extends a b)
    (hm : it ∈ a.trace) : it ∈ b.trace := by
  obtain ⟨⟨d, hd⟩, -, -, -⟩ := h
  rw [hd]
  exact List.mem_append.mpr (Or.inl hm)

/-- A state change that keeps the service list and only appends to the
trace extends the state. -/
lemma extends_of_append {a b : St} (hs : b.services = a.services)
    (ht : ∃ Δ, b.trace = a.trace ++ Δ) : Extends a b := by
  refine ⟨ht, by rw [hs]; exact staticEq_refl _, ?_, ?_⟩ <;>
    · intro x h
      simpa [visitedOf, dependOf, hs] using h

lemma extends_event_post (st : St) (n : String) (b : Bool) (m : String) :
    Extends st (Event_post st n b m) :=
  extends_of_append rfl ⟨[TraceItem.ev n b m], rfl⟩

lemma extends_runCommand {env : Env} {st : St} {n : String} {k : CmdKind}
    {c : command_t} {status rem : Int} {msg : String} {st' : St}
    (h : runCommand env st n k c = some (status, rem, msg, st')) : Extends st st' := by
  unfold runCommand at h
  split at h
  · exact absurd h (by simp)
  · simp only [Option.some.injEq, Prod.mk.injEq] at h
    obtain ⟨-, -, -, hst⟩ := h
    exact extends_of_append (by rw [← hst]) ⟨[TraceItem.exec n k], by rw [← hst]⟩

lemma extends_probe (env : Env) (st : St) (n : String) :
    Extends st (Util_isProcessRunning env st n).2 :=
  extends_of_append rfl ⟨[], by simp [Util_isProcessRunning]⟩

lemma extends_waitStartM {env : Env} {st : St} {n : String} {t : Int}
    {ps : Process_Status} {rem : Int} {st' : St}
    (h : waitStartM env st n t = some (ps, rem, st')) : Extends st st' := by
  unfold waitStartM at h
  split at h
  · exact absurd h (by simp)
  · simp only [Option.some.injEq, Prod.mk.injEq] at h
    obtain ⟨-, -, hst⟩ := h
    exact extends_of_append (by rw [← hst]) ⟨[], by rw [← hst]; simp⟩

lemma extends_waitStopM {env : Env} {st : St} {pid t : Int}
    {ps : Process_Status} {rem : Int} {st' : St}
    (h : waitStopM env st pid t = some (ps, rem, st')) : Extends st st' := by
  unfold waitStopM at h
  split at h
  · exact absurd h (by simp)
  · simp only [Option.some.injEq, Prod.mk.injEq] at h
    obtain ⟨-, -, hst⟩ := h
    exact extends_of_append (by rw [← hst]) ⟨[], by rw [← hst]; simp⟩

lemma monitorSet_marks (st : St) (n : String) :
    (Util_monitorSet st n).trace = st.trace ∧
    (∀ x, visitedOf (Util_monitorSet st n) x = visitedOf st x) ∧
    (∀ x, dependOf (Util_monitorSet st n) x = dependOf st x) ∧
    staticEq st.services (Util_monitorSet st n).services := by
  have hname : ∀ s : Service_T,
      ((fun s => if s.monitor = .not then {s with monitor := Monitor_State.init} else s) s).name
        = s.name := by
    intro s
    show (if s.monitor = .not then {s with monitor := Monitor_State.init} else s).name = s.name
    split <;> rfl
  have hv : ∀ s : Service_T,
      ((fun s => if s.monitor = .not then {s with monitor := Monitor_State.init} else s) s).visited
        = s.visited := by
    intro s
    show (if s.monitor = .not then {s with monitor := Monitor_State.init} else s).visited = s.visited
    split <;> rfl
  have hd : ∀ s : Service_T,
      ((fun s => if s.monitor = .not then
          {s with monitor := Monitor_State.init} else s) s).depend_visited
        = s.depend_visited := by
    intro s
    show (if s.monitor = .not then
        {s with monitor := Monitor_State.init} else s).depend_visited = s.depend_visited
    split <;> rfl
  have hst : ∀ s : Service_T,
      staticPart ((fun s => if s.monitor = .not then
          {s with monitor := Monitor_State.init} else s) s) = staticPart s := by
    intro s
    show staticPart (if s.monitor = .not then {s with monitor := Monitor_State.init} else s)
      = staticPart s
    split <;> rfl
  exact ⟨rfl, visitedOf_services_update rfl hname hv, dependOf_services_update rfl hname hd,
    staticEq_update hst⟩

lemma extends_monitorSet (st : St) (n : String) : Extends st (Util_monitorSet st n) := by
  obtain ⟨ht, hv, hd, hs⟩ := monitorSet_marks st n
  exact ⟨⟨[], by simp [ht]⟩, hs, fun x h => by rw [hv]; exact h,
    fun x h => by rw [hd]; exact h⟩

lemma monitorUnset_marks (st : St) (n : String) :
    (Util_monitorUnset st n).trace = st.trace ∧
    (∀ x, visitedOf (Util_monitorUnset st n) x = visitedOf st x) ∧
    (∀ x, dependOf (Util_monitorUnset st n) x = dependOf st x) ∧
    staticEq st.services (Util_monitorUnset st n).services :=
  ⟨rfl, visitedOf_services_update rfl (fun _ => rfl) (fun _ => rfl),
   dependOf_services_update rfl (fun _ => rfl) (fun _ => rfl),
   staticEq_update (fun _ => rfl)⟩

lemma extends_monitorUnset (st : St) (n : String) : Extends st (Util_monitorUnset st n) := by
  obtain ⟨ht, hv, hd, hs⟩ := monitorUnset_marks st n
  exact ⟨⟨[], by simp [ht]⟩, hs, fun x h => by rw [hv]; exact h,
    fun x h => by rw [hd]; exact h⟩

lemma runCommand_parts {env : Env} {st : St} {n : String} {k : CmdKind} {c : command_t}
    {status rem : Int} {msg : String} {st' : St}
    (h : runCommand env st n k c = some (status, rem, msg, st')) :
    st'.services = st.services ∧ st'.trace = st.trace ++ [TraceItem.exec n k] := by
  unfold runCommand at h
  split at h
  · exact absurd h (by simp)
  · simp only [Option.some.injEq, Prod.mk.injEq] at h
    obtain ⟨-, -, -, hst⟩ := h
    rw [← hst]
    exact ⟨rfl, rfl⟩

lemma waitStartM_parts {env : Env} {st : St} {n : String} {t : Int}
    {ps : Process_Status} {rem : Int} {st' : St}
    (h : waitStartM env st n t = some (ps, rem, st')) :
    st'.services = st.services ∧ st'.trace = st.trace := by
  unfold waitStartM at h
  split at h
  · exact absurd h (by simp)
  · simp only [Option.some.injEq, Prod.mk.injEq] at h
    obtain ⟨-, -, hst⟩ := h
    rw [← hst]
    exact ⟨rfl, rfl⟩

lemma waitStopM_parts {env : Env} {st : St} {pid t : Int}
    {ps : Process_Status} {rem : Int} {st' : St}
    (h : waitStopM env st pid t = some (ps, rem, st')) :
    st'.services = st.services ∧ st'.trace = st.trace := by
  unfold waitStopM at h
  split at h
  · exact absurd h (by simp)
  · simp only [Option.some.injEq, Prod.mk.injEq] at h
    obtain ⟨-, -, hst⟩ := h
    rw [← hst]
    exact ⟨rfl, rfl⟩

/-- The start step never touches the service list and appends only command
executions and events of the service at hand. -/
lemma startService_spec {env : Env} {s : Service_T} {name : String} {st st' : St}
    (h : startService env s name st = some st') :
    st'.services = st.services ∧
    ∃ Δ, st'.trace = st.trace ++ Δ ∧
      ∀ it ∈ Δ, it = TraceItem.exec name CmdKind.start ∨ ∃ b m, it = TraceItem.ev name b m := by
  unfold startService at h
  cases hstart : s.start with
  | none =>
      rw [hstart] at h
      simp only [Option.some.injEq] at h
      rw [← h]
      exact ⟨rfl, [], by simp, by simp⟩
  | some c =>
    rw [hstart] at h
    by_cases hp : s.stype = .process
    · simp only [hp, if_true, Util_isProcessRunning, ne_eq, not_true_eq_false, false_or] at h
      by_cases hpr : env.probe st.pclock name = 0
      · rw [if_pos hpr] at h
        cases hrun : runCommand env {st with pclock := st.pclock + 1} name .start c with
        | none => rw [hrun] at h; exact absurd h (by simp)
        | some r =>
          obtain ⟨status, rem, msg, st5⟩ := r
          rw [hrun] at h
          simp only at h
          cases hws : waitStartM env st5 name rem with
          | none => rw [hws] at h; exact absurd h (by simp)
          | some w =>
            obtain ⟨ps, rem2, st6⟩ := w
            rw [hws] at h
            simp only at h
            obtain ⟨hsv5, htr5⟩ := runCommand_parts hrun
            obtain ⟨hsv6, htr6⟩ := waitStartM_parts hws
            have hshape : ∃ b m, st' = Event_post st6 name b m := by
              split at h <;>
              · simp only [Option.some.injEq] at h
                exact ⟨_, _, h.symm⟩
            obtain ⟨b, m, rfl⟩ := hshape
            refine ⟨by simp [Event_post, hsv6, hsv5],
              [TraceItem.exec name CmdKind.start, TraceItem.ev name b m], ?_, ?_⟩
            · show st6.trace ++ [TraceItem.ev name b m] = _
              rw [htr6, htr5]
              simp
            · intro it hit
              rcases List.mem_cons.mp hit with h1 | h1
              · exact Or.inl h1
              · rw [List.mem_singleton.mp h1]
                exact Or.inr ⟨_, _, rfl⟩
      · rw [if_neg hpr] at h
        simp only [Option.some.injEq] at h
        rw [← h]
        exact ⟨rfl, [], by simp, by simp⟩
    · simp only [hp, if_false, ne_eq, not_false_eq_true, true_or, if_true] at h
      cases hrun : runCommand env st name .start c with
      | none => rw [hrun] at h; exact absurd h (by simp)
      | some r =>
        obtain ⟨status, rem, msg, st5⟩ := r
        rw [hrun] at h
        simp only [hp, if_false] at h
        obtain ⟨hsv5, htr5⟩ := runCommand_parts hrun
        have hshape : ∃ b m, st' = Event_post st5 name b m := by
          split at h <;>
          · simp only [Option.some.injEq] at h
            exact ⟨_, _, h.symm⟩
        obtain ⟨b, m, rfl⟩ := hshape
        refine ⟨by simp [Event_post, hsv5],
          [TraceItem.exec name CmdKind.start, TraceItem.ev name b m], ?_, ?_⟩
        · show st5.trace ++ [TraceItem.ev name b m] = _
          rw [htr5]
          simp
        · intro it hit
          rcases List.mem_cons.mp hit with h1 | h1
          · exact Or.inl h1
          · rw [List.mem_singleton.mp h1]
            exact Or.inr ⟨_, _, rfl⟩

lemma monitorOf_services_update {st st' : St} {n : String} {f : Service_T → Service_T}
    (hs : st'.services = updateService st.services n f)
    (hname : ∀ s, (f s).name = s.name) (hv : ∀ s, (f s).monitor = s.monitor) :
    ∀ x, monitorOf st' x = monitorOf st x := by
  intro x
  unfold monitorOf
  rw [hs]
  by_cases hx : x = n
  · subst hx
    rw [getService_update_self hname]
    cases Util_getService st.services x with
    | none => rfl
    | some s => simp [hv]
  · rw [getService_update_other hname hx]

lemma extends_markVisited (st : St) (name : String) :
    Extends st {st with
      services := updateService st.services name (fun x => {x with visited := true}),
      trace := st.trace ++ [TraceItem.visitStart name]} := by
  refine ⟨⟨[TraceItem.visitStart name], rfl⟩, staticEq_update (fun _ => rfl), ?_, ?_⟩
  · intro x h
    unfold visitedOf at h ⊢
    simp only
    by_cases hx : x = name
    · subst hx
      rw [getService_update_self (f := fun x => {x with visited := true}) (fun _ => rfl)]
      cases hg : Util_getService st.services x with
      | none => rw [hg] at h; exact absurd h (by simp)
      | some s => simp
    · rw [getService_update_other (f := fun x => {x with visited := true})
        (fun _ => rfl) hx]
      exact h
  · intro x h
    have hdep : ∀ y, dependOf {st with
        services := updateService st.services name (fun x => {x with visited := true}),
        trace := st.trace ++ [TraceItem.visitStart name]} y = dependOf st y :=
      dependOf_services_update rfl (fun _ => rfl) (fun _ => rfl)
    rw [hdep x]
    exact h

lemma extends_markDepend (st : St) (name : String) :
    Extends st {st with
      services := updateService st.services name (fun x => {x with depend_visited := true})} := by
  refine ⟨⟨[], by simp⟩, staticEq_update (fun _ => rfl), ?_, ?_⟩
  · intro x h
    have hvis : ∀ y, visitedOf {st with
        services := updateService st.services name (fun x => {x with depend_visited := true})} y
        = visitedOf st y :=
      visitedOf_services_update rfl (fun _ => rfl) (fun _ => rfl)
    rw [hvis x]
    exact h
  · intro x h
    unfold dependOf at h ⊢
    simp only
    by_cases hx : x = name
    · subst hx
      rw [getService_update_self (f := fun x => {x with depend_visited := true})
        (fun _ => rfl)]
      cases hg : Util_getService st.services x with
      | none => rw [hg] at h; exact absurd h (by simp)
      | some s => simp
    · rw [getService_update_other (f := fun x => {x with depend_visited := true})
        (fun _ => rfl) hx]
      exact h

/-- The stop-command block never touches the service list and appends only
command executions and events of the service at hand. -/
lemma stopService_spec {env : Env} {s : Service_T} {name : String} {st : St}
    {rv : Bool} {st' : St} (h : stopService env s name st = some (rv, st')) :
    st'.services = st.services ∧
    ∃ Δ, st'.trace = st.trace ++ Δ ∧
      ∀ it ∈ Δ, it = TraceItem.exec name CmdKind.stop ∨ ∃ b m, it = TraceItem.ev name b m := by
  unfold stopService at h
  cases hstop : s.stop with
  | none =>
      rw [hstop] at h
      simp only [Option.some.injEq, Prod.mk.injEq] at h
      rw [← h.2]
      exact ⟨rfl, [], by simp, by simp⟩
  | some c =>
    rw [hstop] at h
    by_cases hp : s.stype = .process
    · simp only [hp, if_true, Util_isProcessRunning, ne_eq, not_true_eq_false, false_or] at h
      by_cases hpr : env.probe st.pclock name ≠ 0
      · rw [if_pos hpr] at h
        cases hrun : runCommand env {st with pclock := st.pclock + 1 + 1} name .stop c with
        | none => rw [hrun] at h; exact absurd h (by simp)
        | some r =>
          obtain ⟨status, rem, msg, st3⟩ := r
          rw [hrun] at h
          simp only at h
          cases hws : waitStopM env st3 (env.probe (st.pclock + 1) name) rem with
          | none => rw [hws] at h; exact absurd h (by simp)
          | some w =>
            obtain ⟨ps, rem2, st4⟩ := w
            rw [hws] at h
            simp only at h
            obtain ⟨hsv3, htr3⟩ := runCommand_parts hrun
            obtain ⟨hsv4, htr4⟩ := waitStopM_parts hws
            have hshape : ∃ b m, st' = Event_post st4 name b m := by
              split at h <;>
              · simp only [Option.some.injEq, Prod.mk.injEq] at h
                exact ⟨_, _, h.2.symm⟩
            obtain ⟨b, m, rfl⟩ := hshape
            refine ⟨by simp [Event_post, hsv4, hsv3],
              [TraceItem.exec name CmdKind.stop, TraceItem.ev name b m], ?_, ?_⟩
            · show st4.trace ++ [TraceItem.ev name b m] = _
              rw [htr4, htr3]
              simp
            · intro it hit
              rcases List.mem_cons.mp hit with h1 | h1
              · exact Or.inl h1
              · rw [List.mem_singleton.mp h1]
                exact Or.inr ⟨_, _, rfl⟩
      · rw [if_neg hpr] at h
        simp only [Option.some.injEq, Prod.mk.injEq] at h
        rw [← h.2]
        exact ⟨rfl, [], by simp, by simp⟩
    · simp only [hp, if_false, ne_eq, not_false_eq_true, true_or, if_true,
        Util_isProcessRunning] at h
      cases hrun : runCommand env {st with pclock := st.pclock + 1} name .stop c with
      | none => rw [hrun] at h; exact absurd h (by simp)
      | some r =>
        obtain ⟨status, rem, msg, st3⟩ := r
        rw [hrun] at h
        simp only [hp, if_false] at h
        obtain ⟨hsv3, htr3⟩ := runCommand_parts hrun
        have hshape : ∃ b m, st' = Event_post st3 name b m := by
          split at h <;>
          · simp only [Option.some.injEq, Prod.mk.injEq] at h
            exact ⟨_, _, h.2.symm⟩
        obtain ⟨b, m, rfl⟩ := hshape
        refine ⟨by simp [Event_post, hsv3],
          [TraceItem.exec name CmdKind.stop, TraceItem.ev name b m], ?_, ?_⟩
        · show st3.trace ++ [TraceItem.ev name b m] = _
          rw [htr3]
          simp
        · intro it hit
          rcases List.mem_cons.mp hit with h1 | h1
          · exact Or.inl h1
          · rw [List.mem_singleton.mp h1]
            exact Or.inr ⟨_, _, rfl⟩

lemma visitedOf_eq_services {a b : St} (h : a.services = b.services) :
    ∀ x, visitedOf a x = visitedOf b x := by
  intro x
  simp [visitedOf, h]

lemma dependOf_eq_services {a b : St} (h : a.services = b.services) :
    ∀ x, dependOf a x = dependOf b x := by
  intro x
  simp [dependOf, h]

lemma monitorOf_eq_services {a b : St} (h : a.services = b.services) :
    ∀ x, monitorOf a x = monitorOf b x := by
  intro x
  simp [monitorOf, h]

/-- `_doStop` extends the state, never touches any visited mark, sets no
depend_visited mark other than its own service's, appends only stop
executions and events of its service, and — when the stop is part of a
restart (`flag = false`) — changes no monitor state. -/
lemma doStop_spec {env : Env} {name : String} {flag : Bool} {st : St}
    {rv : Bool} {st'' : St} (h : _doStop env name flag st = some (rv, st'')) :
    Extends st st'' ∧
    (∀ x, visitedOf st'' x = visitedOf st x) ∧
    (∀ x, x ≠ name → dependOf st'' x = dependOf st x) ∧
    (∃ Δ, st''.trace = st.trace ++ Δ ∧
      ∀ it ∈ Δ, it = TraceItem.exec name CmdKind.stop ∨ ∃ b m, it = TraceItem.ev name b m) ∧
    (flag = false → ∀ x, monitorOf st'' x = monitorOf st x) := by
  unfold _doStop at h
  cases hg : Util_getService st.services name with
  | none => rw [hg] at h; exact absurd h (by simp)
  | some s =>
    rw [hg] at h
    by_cases hdv : s.depend_visited
    · simp only [hdv, if_true, Option.some.injEq, Prod.mk.injEq] at h
      rw [← h.2]
      exact ⟨Extends.rfl st, fun _ => rfl, fun _ _ => rfl, ⟨[], by simp, by simp⟩,
        fun _ _ => rfl⟩
    · simp only [hdv, Bool.false_eq_true, if_false] at h
      split at h
      · exact absurd h (by simp)
      · next rv2 st2 hss =>
        simp only [Option.some.injEq, Prod.mk.injEq] at h
        obtain ⟨hrv, hst⟩ := h
        obtain ⟨hsv2, Δ, htr2, hΔ⟩ := stopService_spec hss
        set stM : St := {st with services := updateService st.services name (fun x => {x with depend_visited := true})} with hstM
        have hsM : stM.services
            = updateService st.services name (fun x => {x with depend_visited := true}) := by
          rw [hstM]
        have hm1v := visitedOf_services_update hsM (fun _ => rfl) (fun _ => rfl)
        have hm1m := monitorOf_services_update hsM (fun _ => rfl) (fun _ => rfl)
        have hm1d : ∀ x, x ≠ name → dependOf stM x = dependOf st x := by
          intro x hx
          unfold dependOf
          rw [hsM]
          rw [getService_update_other (f := fun x => {x with depend_visited := true})
            (fun _ => rfl) hx]
        have hext1 : Extends st stM := by
          rw [hstM]
          exact extends_markDepend st name
        have hext2 : Extends stM st2 := extends_of_append hsv2 ⟨Δ, htr2⟩
        cases hf : flag with
        | true =>
            rw [hf] at hst
            simp only [if_true] at hst
            obtain ⟨hmt, hmv, hmd, hms⟩ := monitorUnset_marks st2 name
            rw [← hst]
            refine ⟨(hext1.trans hext2).trans (extends_monitorUnset st2 name), ?_, ?_, ?_, ?_⟩
            · intro x
              rw [hmv x, visitedOf_eq_services hsv2 x, hm1v x]
            · intro x hx
              rw [hmd x, dependOf_eq_services hsv2 x, hm1d x hx]
            · refine ⟨Δ, ?_, hΔ⟩
              rw [hmt, htr2, hstM]
            · intro hff
              exact absurd hff (by simp)
        | false =>
            rw [hf] at hst
            simp only [Bool.false_eq_true, if_false] at hst
            have hid : Util_resetInfo st2 name = st2 := rfl
            rw [hid] at hst
            rw [← hst]
            refine ⟨hext1.trans hext2, ?_, ?_, ?_, ?_⟩
            · intro x
              rw [visitedOf_eq_services hsv2 x, hm1v x]
            · intro x hx
              rw [dependOf_eq_services hsv2 x, hm1d x hx]
            · refine ⟨Δ, ?_, hΔ⟩
              rw [htr2, hstM]
            · intro _ x
              rw [monitorOf_eq_services hsv2 x, hm1m x]

/-! ### Extension lemmas for the traversals -/

lemma extends_startService {env : Env} {s : Service_T} {name : String} {st st' : St}
    (h : startService env s name st = some st') : Extends st st' := by
  obtain ⟨hsv, Δ, htr, -⟩ := startService_spec h
  exact extends_of_append hsv ⟨Δ, htr⟩

lemma extends_stopService {env : Env} {s : Service_T} {name : String} {st : St}
    {rv : Bool} {st' : St} (h : stopService env s name st = some (rv, st')) :
    Extends st st' := by
  obtain ⟨hsv, Δ, htr, -⟩ := stopService_spec h
  exact extends_of_append hsv ⟨Δ, htr⟩

lemma extends_actTrace (st : St) (name : String) :
    Extends st {st with trace := st.trace ++ [TraceItem.act name]} :=
  extends_of_append rfl ⟨[TraceItem.act name], rfl⟩

lemma doStartAux_extends {env : Env} : ∀ {fuel : Nat} {names : List String} {st st' : St},
    doStartAux env fuel names st = some st' → Extends st st' := by
  intro fuel
  induction fuel with
  | zero =>
    intro names st st' h
    exact absurd h (by simp [doStartAux])
  | succ fuel ih =>
    intro names st st' h
    cases names with
    | nil =>
      simp only [doStartAux, Option.some.injEq] at h
      rw [← h]
      exact Extends.rfl st
    | cons name rest =>
      rw [doStartAux] at h
      cases hg : Util_getService st.services name with
      | none => rw [hg] at h; exact absurd h (by simp)
      | some s =>
        simp only [hg] at h
        by_cases hv : s.visited
        · simp only [hv, if_true] at h
          exact ih h
        · simp only [hv, Bool.false_eq_true, if_false] at h
          split at h
          · exact absurd h (by simp)
          · next st2 hd =>
            split at h
            · exact absurd h (by simp)
            · next st8 hss =>
              exact ((((extends_markVisited st name).trans (ih hd)).trans
                (extends_actTrace st2 name)).trans
                (extends_startService hss)).trans
                ((extends_monitorSet st8 name).trans (ih h))

lemma extends_markVisitedQuiet (st : St) (name : String) :
    Extends st {st with
      services := updateService st.services name (fun x => {x with visited := true})} := by
  refine ⟨⟨[], by simp⟩, staticEq_update (fun _ => rfl), ?_, ?_⟩
  · intro x h
    unfold visitedOf at h ⊢
    simp only
    by_cases hx : x = name
    · subst hx
      rw [getService_update_self (f := fun x => {x with visited := true}) (fun _ => rfl)]
      cases hg : Util_getService st.services x with
      | none => rw [hg] at h; exact absurd h (by simp)
      | some s => simp
    · rw [getService_update_other (f := fun x => {x with visited := true})
        (fun _ => rfl) hx]
      exact h
  · intro x h
    have hdep : ∀ y, dependOf {st with
        services := updateService st.services name (fun x => {x with visited := true})} y
        = dependOf st y :=
      dependOf_services_update rfl (fun _ => rfl) (fun _ => rfl)
    rw [hdep x]
    exact h

lemma doMonitorAux_extends : ∀ {fuel : Nat} {names : List String} {st st' : St},
    doMonitorAux fuel names st = some st' → Extends st st' := by
  intro fuel
  induction fuel with
  | zero =>
    intro names st st' h
    exact absurd h (by simp [doMonitorAux])
  | succ fuel ih =>
    intro names st st' h
    cases names with
    | nil =>
      simp only [doMonitorAux, Option.some.injEq] at h
      rw [← h]
      exact Extends.rfl st
    | cons name rest =>
      rw [doMonitorAux] at h
      cases hg : Util_getService st.services name with
      | none => rw [hg] at h; exact absurd h (by simp)
      | some s =>
        simp only [hg] at h
        by_cases hv : s.visited
        · simp only [hv, if_true] at h
          exact ih h
        · simp only [hv, Bool.false_eq_true, if_false] at h
          split at h
          · exact absurd h (by simp)
          · next st2 hd =>
            exact ((extends_markVisitedQuiet st name).trans (ih hd)).trans
              ((extends_monitorSet st2 name).trans (ih h))

lemma extends_doUnmonitor {name : String} {st st' : St}
    (h : _doUnmonitor name st = some st') : Extends st st' := by
  unfold _doUnmonitor at h
  cases hg : Util_getService st.services name with
  | none => rw [hg] at h; exact absurd h (by simp)
  | some s =>
    simp only [hg] at h
    by_cases hv : s.depend_visited
    · simp only [hv, if_true, Option.some.injEq] at h
      rw [← h]
      exact Extends.rfl st
    · simp only [hv, Bool.false_eq_true, if_false, Option.some.injEq] at h
      rw [← h]
      exact (extends_markDepend st name).trans (extends_monitorUnset _ name)

lemma extends_doRestart {env : Env} {name : String} {st st' : St}
    (h : _doRestart env name st = some st') : Extends st st' := by
  unfold _doRestart at h
  cases hg : Util_getService st.services name with
  | none => rw [hg] at h; exact absurd h (by simp)
  | some s =>
    simp only [hg] at h
    cases hres : s.restart with
    | none =>
      rw [hres] at h
      simp only [Option.some.injEq] at h
      rw [← h]
      exact extends_monitorSet st name
    | some c =>
      rw [hres] at h
      simp only at h
      cases hrun : runCommand env (Util_resetInfo st name) name .restart c with
      | none => rw [hrun] at h; exact absurd h (by simp)
      | some r =>
        obtain ⟨status, rem, msg, st1⟩ := r
        simp only [hrun] at h
        have hext1 : Extends st st1 := extends_runCommand hrun
        by_cases hp : s.stype = .process
        · simp only [hp, if_true] at h
          cases hws : waitStartM env st1 name rem with
          | none => rw [hws] at h; exact absurd h (by simp)
          | some w =>
            obtain ⟨ps, rem2, st2⟩ := w
            simp only [hws] at h
            have hext2 : Extends st1 st2 := extends_waitStartM hws
            have hshape : ∃ b m, st' = Util_monitorSet (Event_post st2 name b m) name := by
              split at h
              · exact absurd h (by simp)
              · next st8 heq =>
                simp only [Option.some.injEq] at h
                have hbm : ∃ b m, st8 = Event_post st2 name b m := by
                  split at heq <;>
                  · simp only [Option.some.injEq] at heq
                    exact ⟨_, _, heq.symm⟩
                obtain ⟨b, m, hbm⟩ := hbm
                exact ⟨b, m, by rw [← h, hbm]⟩
            obtain ⟨b, m, rfl⟩ := hshape
            exact (hext1.trans hext2).trans
              ((extends_event_post st2 name b m).trans (extends_monitorSet _ name))
        · simp only [hp, if_false] at h
          have hshape : ∃ b m, st' = Util_monitorSet (Event_post st1 name b m) name := by
            split at h
            · exact absurd h (by simp)
            · next st8 heq =>
              simp only [Option.some.injEq] at h
              have hbm : ∃ b m, st8 = Event_post st1 name b m := by
                split at heq <;>
                · simp only [Option.some.injEq] at heq
                  exact ⟨_, _, heq.symm⟩
              obtain ⟨b, m, hbm⟩ := hbm
              exact ⟨b, m, by rw [← h, hbm]⟩
          obtain ⟨b, m, rfl⟩ := hshape
          exact hext1.trans
            ((extends_event_post st1 name b m).trans (extends_monitorSet _ name))

lemma extends_doStop {env : Env} {name : String} {flag : Bool} {st : St}
    {rv : Bool} {st' : St} (h : _doStop env name flag st = some (rv, st')) :
    Extends st st' :=
  (doStop_spec h).1

lemma doDependAux_extends {env : Env} :
    ∀ {fuel : Nat} {names : List String} {name : String} {action : Action_Type}
      {flag : Bool} {st st' : St},
    doDependAux env fuel names name action flag st = some st' → Extends st st' := by
  intro fuel
  induction fuel with
  | zero =>
    intro names name action flag st st' h
    exact absurd h (by simp [doDependAux])
  | succ fuel ih =>
    intro names name action flag st st' h
    cases names with
    | nil =>
      simp only [doDependAux, Option.some.injEq] at h
      rw [← h]
      exact Extends.rfl st
    | cons cname rest =>
      rw [doDependAux] at h
      cases hg : Util_getService st.services cname with
      | none => rw [hg] at h; exact absurd h (by simp)
      | some child =>
        simp only [hg] at h
        by_cases hm : name ∈ child.dependantlist
        · simp only [hm, if_true] at h
          cases h1 : (if action = .start then _doStart env fuel cname st
              else if action = .monitor then _doMonitor fuel cname st else some st) with
          | none => rw [h1] at h; exact absurd h (by simp)
          | some st1 =>
            simp only [h1] at h
            have hext1 : Extends st st1 := by
              by_cases ha : action = .start
              · rw [if_pos ha] at h1
                exact doStartAux_extends h1
              · rw [if_neg ha] at h1
                by_cases hb : action = .monitor
                · rw [if_pos hb] at h1
                  exact doMonitorAux_extends h1
                · rw [if_neg hb] at h1
                  simp only [Option.some.injEq] at h1
                  rw [← h1]
                  exact Extends.rfl st
            cases h2 : doDependAux env fuel (st1.services.map (fun x => x.name))
                cname action flag st1 with
            | none => rw [h2] at h; exact absurd h (by simp)
            | some st2 =>
              simp only [h2] at h
              cases h3 : (if action = .stop then
                  match _doStop env cname flag st2 with
                  | none => none
                  | some (_, st3) => some st3
                else if action = .unmonitor then _doUnmonitor cname st2 else some st2) with
              | none => rw [h3] at h; exact absurd h (by simp)
              | some st3 =>
                simp only [h3] at h
                have hext3 : Extends st2 st3 := by
                  by_cases ha : action = .stop
                  · rw [if_pos ha] at h3
                    cases h4 : _doStop env cname flag st2 with
                    | none => rw [h4] at h3; exact absurd h3 (by simp)
                    | some p =>
                      obtain ⟨rv4, st4⟩ := p
                      rw [h4] at h3
                      simp only [Option.some.injEq] at h3
                      rw [← h3]
                      exact extends_doStop h4
                  · rw [if_neg ha] at h3
                    by_cases hb : action = .unmonitor
                    · rw [if_pos hb] at h3
                      exact extends_doUnmonitor h3
                    · rw [if_neg hb] at h3
                      simp only [Option.some.injEq] at h3
                      rw [← h3]
                      exact Extends.rfl st2
                exact ((hext1.trans (ih h2)).trans hext3).trans (ih h)
        · simp only [hm, if_false] at h
          exact ih h

/-! ### Claims C10 and C3: dispatcher error handling and mark reset -/

/-- A concrete environment for the dispatcher witnesses: no process is ever
seen running, shutdown is never requested, stopped pids are gone at once,
and every spawned command uses the default context. -/
def envN : Env :=
  { probe := fun _ _ => 0, stopped := fun _ => false, gone := fun _ => true,
    exec := fun _ => {} }

/-- A minimal service: a Process-type service with no command descriptors
and no dependencies. -/
def svcA : Service_T := { name := "a" }

/-- A one-service state with an empty trace. -/
def stN : St := { services := [svcA] }

/-- **C10**: for a service name not present in the service list — and
likewise for an action outside the five service actions —
`control_service` returns `false` and leaves the state (services, marks,
monitor states, trace) exactly unchanged. -/
theorem C10_unknown_service_or_invalid_action (env : Env) (st : St) (S : String)
    (A : Action_Type)
    (h : Util_getService st.services S = none ∨
      (A ≠ .start ∧ A ≠ .stop ∧ A ≠ .restart ∧ A ≠ .monitor ∧ A ≠ .unmonitor)) :
    control_service env st S A = some (false, st) := by
  unfold control_service
  rcases h with h | h
  · rw [h]
  · cases hg : Util_getService st.services S with
    | none => rfl
    | some s =>
      obtain ⟨h1, h2, h3, h4, h5⟩ := h
      cases A with
      | ignored => rfl
      | alert => rfl
      | exec => rfl
      | start => exact absurd rfl h1
      | stop => exact absurd rfl h2
      | restart => exact absurd rfl h3
      | monitor => exact absurd rfl h4
      | unmonitor => exact absurd rfl h5

theorem C10_unknown_service_or_invalid_action_witness :
    control_service envN stN "b" Action_Type.start = some (false, stN) :=
  C10_unknown_service_or_invalid_action envN stN "b" .start (Or.inl (by decide))

/-- **C3**: after one complete action batch through the dispatcher —
`control_service` followed by the callers' `reset_depend` sweep — every
service's `visited` and `depend_visited` marks are false again. -/
theorem C3_batch_resets_marks {env : Env} {st : St} {S : String} {A : Action_Type}
    {rv : Bool} {st' : St}
    (_hA : A = .start ∨ A = .stop ∨ A = .restart ∨ A = .monitor ∨ A = .unmonitor)
    (h : actionBatch env st S A = some (rv, st')) :
    ∀ s ∈ st'.services, s.visited = false ∧ s.depend_visited = false := by
  unfold actionBatch at h
  cases hc : control_service env st S A with
  | none => rw [hc] at h; exact absurd h (by simp)
  | some p =>
    obtain ⟨b, st2⟩ := p
    rw [hc] at h
    simp only [Option.some.injEq, Prod.mk.injEq] at h
    obtain ⟨-, hst⟩ := h
    rw [← hst]
    intro s hs
    simp only [reset_depend, List.mem_map] at hs
    obtain ⟨t, -, rfl⟩ := hs
    exact ⟨rfl, rfl⟩

theorem C3_batch_resets_marks_witness :
    ∃ rv st', actionBatch envN stN "a" Action_Type.monitor = some (rv, st') ∧
      ∀ s ∈ st'.services, s.visited = false ∧ s.depend_visited = false :=
  ⟨true, stN, by rfl,
    @C3_batch_resets_marks envN stN "a" Action_Type.monitor true stN
      (Or.inr (Or.inr (Or.inr (Or.inl rfl)))) (by rfl)⟩

/-! ### Helper lemmas for the restart analysis -/

lemma getService_of_mem_names {l : List Service_T} {x : String}
    (h : x ∈ l.map (fun s => s.name)) : ∃ s, Util_getService l x = some s := by
  induction l with
  | nil => simp at h
  | cons a t ih =>
    unfold Util_getService
    by_cases ha : a.name == x
    · exact ⟨a, List.find?_cons_of_pos (p := fun (s : Service_T) => s.name == x) _ ha⟩
    · rw [List.find?_cons_of_neg (p := fun (s : Service_T) => s.name == x) _ ha]
      simp only [List.map_cons, List.mem_cons] at h
      rcases h with h | h
      · exact absurd (show (a.name == x) = true by rw [h]; exact beq_self_eq_true a.name) ha
      · exact ih h

/-- When no service lists `name` among its dependants, `_doDepend`'s walk is
a no-op. -/
lemma doDependAux_noop {env : Env} {name : String} {action : Action_Type} {flag : Bool}
    {st : St} : ∀ {names : List String} {fuel : Nat}, names.length < fuel →
    (∀ x ∈ names, ∃ s, Util_getService st.services x = some s ∧ name ∉ s.dependantlist) →
    doDependAux env fuel names name action flag st = some st := by
  intro names
  induction names with
  | nil =>
    intro fuel hf _
    match fuel, hf with
    | fuel + 1, _ => rfl
  | cons c rest ih =>
    intro fuel hf hres
    match fuel, hf with
    | fuel + 1, hf =>
      obtain ⟨s, hg, hnm⟩ := hres c (by simp)
      rw [doDependAux]
      simp only [hg, hnm, if_false]
      exact ih (by simp at hf; omega) (fun x hx => hres x (by simp [hx]))

/-- A service with no stop command, or a Process-type service that is not
observed running, counts as stopped at once: `_doStop` reports success and
executes nothing (the trace is unchanged). -/
lemma doStop_trivial_success {env : Env} {st : St} {name : String} {s : Service_T}
    (hg : Util_getService st.services name = some s)
    (hns : s.stop = none ∨ (s.stype = .process ∧ env.probe st.pclock name = 0))
    (flag : Bool) :
    ∃ st'', _doStop env name flag st = some (true, st'') ∧ st''.trace = st.trace := by
  unfold _doStop
  rw [hg]
  simp only
  by_cases hdv : s.depend_visited
  · simp only [hdv, if_true]
    exact ⟨st, rfl, rfl⟩
  · simp only [hdv, Bool.false_eq_true, if_false]
    rcases hns with hns | hns
    · have hstop : stopService env s name
          {st with services := updateService st.services name (fun x => {x with depend_visited := true})}
          = some (true, {st with services := updateService st.services name (fun x => {x with depend_visited := true})}) := by
        unfold stopService
        rw [hns]
      rw [hstop]
      cases flag <;> exact ⟨_, rfl, rfl⟩
    · obtain ⟨hp, hpr⟩ := hns
      cases hsc : s.stop with
      | none =>
        have hstop : stopService env s name
            {st with services := updateService st.services name (fun x => {x with depend_visited := true})}
            = some (true, {st with services := updateService st.services name (fun x => {x with depend_visited := true})}) := by
          unfold stopService
          rw [hsc]
        rw [hstop]
        cases flag <;> exact ⟨_, rfl, rfl⟩
      | some c =>
        have hstop : stopService env s name
            {st with services := updateService st.services name (fun x => {x with depend_visited := true})}
            = some (true, {st with services := updateService st.services name (fun x => {x with depend_visited := true}), pclock := st.pclock + 1}) := by
          unfold stopService
          rw [hsc]
          simp only [hp, if_true, Util_isProcessRunning]
          rw [if_neg]
          push_neg
          exact ⟨by simp [hp], by simpa using hpr⟩
        rw [hstop]
        cases flag <;> exact ⟨_, rfl, rfl⟩

/-- A successful `_doStart` traversal whose head service is unvisited always
reaches that service's start step: `act` enters the trace. -/
lemma doStartAux_act {env : Env} {fuel : Nat} {name : String} {rest : List String}
    {st st' : St} {s : Service_T}
    (hg : Util_getService st.services name = some s) (hv : s.visited = false)
    (h : doStartAux env fuel (name :: rest) st = some st') :
    TraceItem.act name ∈ st'.trace := by
  match fuel with
  | 0 => exact absurd h (by simp [doStartAux])
  | fuel + 1 =>
    rw [doStartAux] at h
    simp only [hg, hv, Bool.false_eq_true, if_false] at h
    split at h
    · exact absurd h (by simp)
    · next st2 hd =>
      split at h
      · exact absurd h (by simp)
      · next st8 hss =>
        have hmem : TraceItem.act name ∈ st2.trace ++ [TraceItem.act name] := by simp
        have h8 := (extends_startService hss).mem_trace hmem
        exact ((extends_monitorSet st8 name).trans (doStartAux_extends h)).mem_trace h8

/-- A Stop walk of `_doDepend` never touches any `visited` mark (it sets
only `depend_visited` marks through `_doStop`). -/
lemma doDependStop_visited {env : Env} :
    ∀ {fuel : Nat} {names : List String} {name : String} {flag : Bool} {st st' : St},
    doDependAux env fuel names name .stop flag st = some st' →
    ∀ x, visitedOf st' x = visitedOf st x := by
  intro fuel
  induction fuel with
  | zero =>
    intro names name flag st st' h
    exact absurd h (by simp [doDependAux])
  | succ fuel ih =>
    intro names name flag st st' h
    cases names with
    | nil =>
      simp only [doDependAux, Option.some.injEq] at h
      rw [← h]
      intro x
      rfl
    | cons cname rest =>
      rw [doDependAux] at h
      cases hg : Util_getService st.services cname with
      | none => rw [hg] at h; exact absurd h (by simp)
      | some child =>
        simp only [hg] at h
        by_cases hm : name ∈ child.dependantlist
        · simp only [hm, if_true, reduceCtorEq, if_false] at h
          cases h2 : doDependAux env fuel (st.services.map (fun x => x.name))
              cname .stop flag st with
          | none => rw [h2] at h; exact absurd h (by simp)
          | some st2 =>
            simp only [h2] at h
            cases h4 : _doStop env cname flag st2 with
            | none => rw [h4] at h; exact absurd h (by simp)
            | some p =>
              obtain ⟨rv4, st4⟩ := p
              simp only [h4] at h
              intro x
              rw [ih h x, (doStop_spec h4).2.1 x, ih h2 x]
        · simp only [hm, if_false] at h
          exact ih h

/-- **C9** (amended): a service with no stop command — or a Process service
not observed running — counts as stopped at once: `_doStop` reports success
without executing any command; consequently a Restart of a service with no
stop command (and no restart descriptor) proceeds past the stop phase to
the start traversal (`act` enters the trace) regardless of which services
depend on it, though the start command itself is executed only when the
service is not observed already running. -/
theorem C9_no_stop_restart {env : Env} {st : St} {name : String} {s : Service_T}
    (hg : Util_getService st.services name = some s)
    (hns : s.stop = none ∨ (s.stype = .process ∧ env.probe st.pclock name = 0)) :
    (∀ flag, ∃ st'', _doStop env name flag st = some (true, st'') ∧
      st''.trace = st.trace) ∧
    (∀ rv st', s.restart = none → s.stop = none → s.visited = false →
      control_service env st name .restart = some (rv, st') →
      rv = true ∧ TraceItem.act name ∈ st'.trace) := by
  refine ⟨fun flag => doStop_trivial_success hg hns flag, ?_⟩
  intro rv st' hres hsn hv h
  unfold control_service at h
  rw [hg] at h
  simp only [hres] at h
  cases hd1 : _doDepend env (2 * st.services.length + 2) name .stop false st with
  | none => rw [hd1] at h; exact absurd h (by simp)
  | some st1 =>
    rw [hd1] at h
    simp only [Option.bind_eq_bind, Option.some_bind] at h
    have hd1' := hd1
    unfold _doDepend at hd1'
    have hse1 : staticEq st.services st1.services := (doDependAux_extends hd1').2.1
    have hvk1 : ∀ x, visitedOf st1 x = visitedOf st x := doDependStop_visited hd1'
    have hmap := staticEq_getService hse1 name
    rw [hg] at hmap
    cases hg1 : Util_getService st1.services name with
    | none => rw [hg1] at hmap; exact absurd hmap (by simp)
    | some s1 =>
      rw [hg1] at hmap
      simp only [Option.map_some', Option.some.injEq] at hmap
      have hsn1 : s1.stop = none := by
        have he : s.stop = s1.stop := by
          unfold staticPart at hmap
          exact congrArg (fun p => p.2.2.2.1) hmap
        rw [← he, hsn]
      obtain ⟨st2, hstop, htr2⟩ := doStop_trivial_success hg1 (Or.inl hsn1) false
      rw [hstop] at h
      simp only [Option.bind_eq_bind, Option.some_bind, if_true] at h
      cases hd3 : _doStart env (2 * st.services.length + 2) name st2 with
      | none => rw [hd3] at h; exact absurd h (by simp)
      | some st3 =>
        rw [hd3] at h
        simp only [Option.bind_eq_bind, Option.some_bind] at h
        cases hd4 : _doDepend env (2 * st.services.length + 2) name .start false st3 with
        | none => rw [hd4] at h; exact absurd h (by simp)
        | some st4 =>
          rw [hd4] at h
          simp only [Option.bind_eq_bind, Option.some_bind, Option.some.injEq,
            Prod.mk.injEq] at h
          obtain ⟨hrv, hst⟩ := h
          have hv2 : visitedOf st2 name = false := by
            have hvv := (doStop_spec hstop).2.1 name
            rw [hvv, hvk1 name]
            simp [visitedOf, hg, hv]
          have hse2 : staticEq st1.services st2.services := (doStop_spec hstop).1.2.1
          have hmap2 := staticEq_getService hse2 name
          rw [hg1] at hmap2
          cases hg2 : Util_getService st2.services name with
          | none => rw [hg2] at hmap2; exact absurd hmap2 (by simp)
          | some s2 =>
            have hv2' : s2.visited = false := by
              unfold visitedOf at hv2
              rw [hg2] at hv2
              simpa using hv2
            have hact : TraceItem.act name ∈ st3.trace := by
              unfold _doStart at hd3
              exact doStartAux_act hg2 hv2' hd3
            refine ⟨hrv.symm, ?_⟩
            rw [← hst]
            exact (doDependAux_extends hd4).mem_trace hact

/-- A running Process service whose descriptor has a start command but no
stop command, probed as alive (pid 1) by every `Util_isProcessRunning`
call. -/
def envP : Env :=
  { probe := fun _ _ => 1, stopped := fun _ => false, gone := fun _ => true,
    exec := fun _ => {} }

def svcP : Service_T := { name := "p", start := some { arg := ["/bin/p"], timeout := 1 } }

def stP : St := { services := [svcP] }

/-- **C9** counterexample: `svcP` has no stop command, so its Restart passes
the stop phase — yet the start command is never executed, because the start
step skips a Process service that is observed already running.  The claim's
consequence "a Restart of such a service always proceeds to execute the
start command" fails. -/
theorem C9_running_process_no_start_cex :
    svcP.stop = none ∧
    ∃ st', control_service envP stP "p" Action_Type.restart = some (true, st') ∧
      TraceItem.exec "p" CmdKind.start ∉ st'.trace :=
  ⟨rfl, _, by rfl, by decide⟩

/-- A running Process service `r` with a start command but no stop command,
depended upon by service `w` (`w` lists `r` among its dependencies). -/
def envR : Env :=
  { probe := fun _ _ => 1, stopped := fun _ => false, gone := fun _ => true,
    exec := fun _ => {} }

def svcR : Service_T := { name := "r", start := some { arg := ["/bin/r"], timeout := 1 } }

def svcW : Service_T := { name := "w", dependantlist := ["r"] }

def stR : St := { services := [svcR, svcW] }

theorem C9_no_stop_restart_witness :
    (∃ st'', _doStop envR "r" false stR = some (true, st'') ∧ st''.trace = stR.trace) ∧
    (∃ rv st', control_service envR stR "r" Action_Type.restart = some (rv, st') ∧
      rv = true ∧ TraceItem.act "r" ∈ st'.trace) := by
  have hmain := @C9_no_stop_restart envR stR "r" svcR (by rfl) (Or.inl rfl)
  exact ⟨hmain.1 false, ⟨true, _, by rfl, hmain.2 true _ rfl rfl rfl (by rfl)⟩⟩

/-! ### The failing stop -/

/-- When the stop block reports failure it has posted a Failed event whose
message carries the exit status and the command output. -/
lemma stopService_fail {env : Env} {s : Service_T} {name : String} {st : St}
    {st' : St} (h : stopService env s name st = some (false, st')) :
    ∃ status : Int, ∃ out : String,
      TraceItem.ev name false
        ("failed to stop (exit status " ++ toString status ++ ") -- " ++ out)
        ∈ st'.trace := by
  unfold stopService at h
  cases hstop : s.stop with
  | none =>
      rw [hstop] at h
      simp at h
  | some c =>
    rw [hstop] at h
    by_cases hp : s.stype = .process
    · simp only [hp, if_true, Util_isProcessRunning, ne_eq, not_true_eq_false, false_or] at h
      by_cases hpr : env.probe st.pclock name ≠ 0
      · rw [if_pos hpr] at h
        cases hrun : runCommand env {st with pclock := st.pclock + 1 + 1} name .stop c with
        | none => rw [hrun] at h; exact absurd h (by simp)
        | some r =>
          obtain ⟨status, rem, msg, st3⟩ := r
          rw [hrun] at h
          simp only at h
          cases hws : waitStopM env st3 (env.probe (st.pclock + 1) name) rem with
          | none => rw [hws] at h; exact absurd h (by simp)
          | some w =>
            obtain ⟨ps, rem2, st4⟩ := w
            rw [hws] at h
            simp only at h
            split at h
            · simp only [Option.some.injEq, Prod.mk.injEq] at h
              refine ⟨status, (if msg = "" then "no output" else msg), ?_⟩
              rw [← h.2]
              simp [Event_post]
            · simp only [Option.some.injEq, Prod.mk.injEq] at h
              exact absurd h.1 (by simp)
      · rw [if_neg hpr] at h
        simp at h
    · simp only [hp, if_false, ne_eq, not_false_eq_true, true_or, if_true,
        Util_isProcessRunning] at h
      cases hrun : runCommand env {st with pclock := st.pclock + 1} name .stop c with
      | none => rw [hrun] at h; exact absurd h (by simp)
      | some r =>
        obtain ⟨status, rem, msg, st3⟩ := r
        rw [hrun] at h
        simp only [hp, if_false] at h
        split at h
        · simp only [Option.some.injEq, Prod.mk.injEq] at h
          refine ⟨status, (if msg = "" then "no output" else msg), ?_⟩
          rw [← h.2]
          simp [Event_post]
        · simp only [Option.some.injEq, Prod.mk.injEq] at h
          exact absurd h.1 (by simp)

/-- When `_doStop` reports failure, a `failed to stop` event is in the
trace. -/
lemma doStop_fail {env : Env} {name : String} {flag : Bool} {st st' : St}
    (h : _doStop env name flag st = some (false, st')) :
    ∃ status : Int, ∃ out : String,
      TraceItem.ev name false
        ("failed to stop (exit status " ++ toString status ++ ") -- " ++ out)
        ∈ st'.trace := by
  unfold _doStop at h
  cases hg : Util_getService st.services name with
  | none => rw [hg] at h; exact absurd h (by simp)
  | some s =>
    simp only [hg] at h
    by_cases hdv : s.depend_visited
    · simp only [hdv, if_true, Option.some.injEq, Prod.mk.injEq] at h
      exact absurd h.1 (by simp)
    · simp only [hdv, Bool.false_eq_true, if_false] at h
      split at h
      · exact absurd h (by simp)
      · next rv2 st2 hss =>
        simp only [Option.some.injEq, Prod.mk.injEq] at h
        obtain ⟨hrv, hst⟩ := h
        rw [hrv] at hss
        obtain ⟨status, out, hmem⟩ := stopService_fail hss
        refine ⟨status, out, ?_⟩
        rw [← hst]
        cases flag with
        | true =>
            simp only [if_true]
            rw [(monitorUnset_marks st2 name).1]
            exact hmem
        | false => exact hmem

/-- Along a Stop walk of `_doDepend`, every appended trace item is a stop
execution or an event. -/
lemma doDependStop_delta {env : Env} :
    ∀ {fuel : Nat} {names : List String} {name : String} {flag : Bool} {st st' : St},
    doDependAux env fuel names name .stop flag st = some st' →
    ∃ Δ, st'.trace = st.trace ++ Δ ∧
      ∀ it ∈ Δ, (∃ x, it = TraceItem.exec x CmdKind.stop) ∨ ∃ x b m, it = TraceItem.ev x b m := by
  intro fuel
  induction fuel with
  | zero =>
    intro names name flag st st' h
    exact absurd h (by simp [doDependAux])
  | succ fuel ih =>
    intro names name flag st st' h
    cases names with
    | nil =>
      simp only [doDependAux, Option.some.injEq] at h
      rw [← h]
      exact ⟨[], by simp, by simp⟩
    | cons cname rest =>
      rw [doDependAux] at h
      cases hg : Util_getService st.services cname with
      | none => rw [hg] at h; exact absurd h (by simp)
      | some child =>
        simp only [hg] at h
        by_cases hm : name ∈ child.dependantlist
        · simp only [hm, if_true, reduceCtorEq, if_false] at h
          cases h2 : doDependAux env fuel (st.services.map (fun x => x.name))
              cname .stop flag st with
          | none => rw [h2] at h; exact absurd h (by simp)
          | some st2 =>
            simp only [h2] at h
            cases h4 : _doStop env cname flag st2 with
            | none => rw [h4] at h; exact absurd h (by simp)
            | some p =>
              obtain ⟨rv4, st4⟩ := p
              simp only [h4] at h
              obtain ⟨Δ2, htr2, hΔ2⟩ := ih h2
              obtain ⟨-, -, -, ⟨Δ3, htr3, hΔ3⟩, -⟩ := doStop_spec h4
              obtain ⟨Δ5, htr5, hΔ5⟩ := ih h
              refine ⟨Δ2 ++ Δ3 ++ Δ5, ?_, ?_⟩
              · rw [htr5, htr3, htr2]
                simp [List.append_assoc]
              · intro it hit
                rcases List.mem_append.mp hit with hit | hit
                · rcases List.mem_append.mp hit with hit | hit
                  · exact hΔ2 it hit
                  · rcases hΔ3 it hit with h5 | ⟨b, m, h5⟩
                    · exact Or.inl ⟨cname, h5⟩
                    · exact Or.inr ⟨cname, b, m, h5⟩
                · exact hΔ5 it hit
        · simp only [hm, if_false] at h
          exact ih h

/-- `Util_monitorSet` never leaves an existing service unmonitored. -/
lemma monitorSet_not_unmonitored {st : St} {n : String} {s : Service_T}
    (hg : Util_getService st.services n = some s) :
    monitorOf (Util_monitorSet st n) n ≠ some .not := by
  unfold monitorOf Util_monitorSet
  simp only
  rw [getService_update_self (f := fun s =>
    if s.monitor = .not then {s with monitor := Monitor_State.init} else s)
    (fun x => by dsimp only; split <;> rfl)]
  rw [hg]
  simp only [Option.map_some']
  intro hcon
  simp only [Option.some.injEq] at hcon
  by_cases hx : s.monitor = .not
  · rw [if_pos hx] at hcon
    exact absurd hcon (by simp)
  · rw [if_neg hx] at hcon
    exact hx hcon

/-- **C4**: a Restart of a service with no `restart` descriptor whose stop
phase fails does not run the start traversal: the dispatcher reports the
batch done (`true`), the failing stop has posted a Failed event carrying
`failed to stop`, nothing appended to the trace is a start execution of the
service, and the service is re-marked for monitoring (its monitor state is
not `Not`), so the next cycle can retry. -/
theorem C4_restart_failed_stop {env : Env} {st : St} {S : String} {s : Service_T}
    {st1 st2 : St}
    (hg : Util_getService st.services S = some s)
    (hres : s.restart = none)
    (hd1 : _doDepend env (2 * st.services.length + 2) S .stop false st = some st1)
    (hstop : _doStop env S false st1 = some (false, st2)) :
    control_service env st S .restart = some (true, Util_monitorSet st2 S) ∧
    (∃ status : Int, ∃ out : String,
      TraceItem.ev S false
        ("failed to stop (exit status " ++ toString status ++ ") -- " ++ out)
        ∈ (Util_monitorSet st2 S).trace) ∧
    (∃ Δ, (Util_monitorSet st2 S).trace = st.trace ++ Δ ∧
      ∀ it ∈ Δ, it ≠ TraceItem.exec S CmdKind.start) ∧
    monitorOf (Util_monitorSet st2 S) S ≠ some Monitor_State.not := by
  have hmt : (Util_monitorSet st2 S).trace = st2.trace := (monitorSet_marks st2 S).1
  refine ⟨?_, ?_, ?_, ?_⟩
  · unfold control_service
    rw [hg]
    simp only [hres, hd1, hstop, Option.bind_eq_bind, Option.some_bind,
      Bool.false_eq_true, if_false]
  · obtain ⟨status, out, hmem⟩ := doStop_fail hstop
    rw [hmt]
    exact ⟨status, out, hmem⟩
  · have hd1' := hd1
    unfold _doDepend at hd1'
    obtain ⟨Δ1, htr1, hΔ1⟩ := doDependStop_delta hd1'
    obtain ⟨-, -, -, ⟨Δ2, htr2, hΔ2⟩, -⟩ := doStop_spec hstop
    refine ⟨Δ1 ++ Δ2, ?_, ?_⟩
    · rw [hmt, htr2, htr1, List.append_assoc]
    · intro it hit
      rcases List.mem_append.mp hit with hit | hit
      · rcases hΔ1 it hit with ⟨x, hx⟩ | ⟨x, b, m, hx⟩ <;> simp [hx]
      · rcases hΔ2 it hit with hx | ⟨b, m, hx⟩ <;> simp [hx]
  · have hext : Extends st st2 := by
      have he1 : Extends st st1 := by
        have hd1' := hd1
        unfold _doDepend at hd1'
        exact doDependAux_extends hd1'
      exact he1.trans (doStop_spec hstop).1
    have hmap := staticEq_getService hext.2.1 S
    rw [hg] at hmap
    cases hg2 : Util_getService st2.services S with
    | none => rw [hg2] at hmap; exact absurd hmap (by simp)
    | some s2 => exact monitorSet_not_unmonitored hg2

/-- A Process service whose stop command times out at once (zero timeout,
the child never reports an exit status) while the process stays alive. -/
def envQ : Env :=
  { probe := fun _ _ => 1, stopped := fun _ => false, gone := fun _ => true,
    exec := fun _ => {} }

def svcQ : Service_T :=
  { name := "q", start := some { arg := ["/bin/q"], timeout := 1 },
    stop := some { arg := ["/bin/qstop"], timeout := 0 } }

def stQ : St := { services := [svcQ] }

theorem C4_restart_failed_stop_witness :
    ∃ st2,
      control_service envQ stQ "q" Action_Type.restart
          = some (true, Util_monitorSet st2 "q") ∧
      (∃ status : Int, ∃ out : String,
        TraceItem.ev "q" false
          ("failed to stop (exit status " ++ toString status ++ ") -- " ++ out)
          ∈ (Util_monitorSet st2 "q").trace) ∧
      (∃ Δ, (Util_monitorSet st2 "q").trace = stQ.trace ++ Δ ∧
        ∀ it ∈ Δ, it ≠ TraceItem.exec "q" CmdKind.start) ∧
      monitorOf (Util_monitorSet st2 "q") "q" ≠ some Monitor_State.not :=
  ⟨_, C4_restart_failed_stop (s := svcQ) (by rfl) rfl (by rfl) (by rfl)⟩

/-! ### Post-order infrastructure for the start traversal -/

/-- A trace is post-ordered for the dependency map `deps` when every `act`
entry is preceded by `act` entries for all the service's dependencies. -/
def postOrdered (deps : String → List String) (tr : List TraceItem) : Prop :=
  ∀ l1 x l2, tr = l1 ++ TraceItem.act x :: l2 →
    ∀ d ∈ deps x, TraceItem.act d ∈ l1

lemma trace_append_split {t Δ l1 l2 : List TraceItem} {a : TraceItem}
    (h : t ++ Δ = l1 ++ a :: l2) :
    (∃ l2', t = l1 ++ a :: l2') ∨ (∃ l1', Δ = l1' ++ a :: l2 ∧ l1 = t ++ l1') := by
  rcases List.append_eq_append_iff.mp h with ⟨m, h1, h2⟩ | ⟨m, h1, h2⟩
  · exact Or.inr ⟨m, h2, h1⟩
  · cases m with
    | nil =>
      refine Or.inr ⟨[], ?_, ?_⟩
      · simpa using h2.symm
      · simpa using h1.symm
    | cons e m' =>
      simp only [List.cons_append, List.cons.injEq] at h2
      obtain ⟨he, -⟩ := h2
      exact Or.inl ⟨m', by rw [h1, he]⟩

lemma postOrdered_nil (deps : String → List String) : postOrdered deps [] := by
  intro l1 x l2 h
  exact absurd h (by simp)

lemma postOrdered_append_quiet {deps : String → List String} {tr Δ : List TraceItem}
    (h : postOrdered deps tr) (hΔ : ∀ y, TraceItem.act y ∉ Δ) :
    postOrdered deps (tr ++ Δ) := by
  intro l1 x l2 hsp d hd
  rcases trace_append_split hsp with ⟨l2', hsp'⟩ | ⟨l1', hin, -⟩
  · exact h l1 x l2' hsp' d hd
  · exact absurd (by rw [hin]; simp : TraceItem.act x ∈ Δ) (hΔ x)

lemma postOrdered_append_act {deps : String → List String} {tr : List TraceItem}
    {x : String} (h : postOrdered deps tr)
    (hdeps : ∀ d ∈ deps x, TraceItem.act d ∈ tr) :
    postOrdered deps (tr ++ [TraceItem.act x]) := by
  intro l1 y l2 hsp d hd
  rcases trace_append_split hsp with ⟨l2', hsp'⟩ | ⟨l1', hin, hl1⟩
  · exact h l1 y l2' hsp' d hd
  · cases l1' with
    | nil =>
      simp only [List.nil_append, List.cons.injEq] at hin
      obtain ⟨hy, -⟩ := hin
      have hyx : y = x := by
        have := hy.symm
        injection this
      rw [hl1]
      simp only [List.append_nil]
      exact hdeps d (hyx ▸ hd)
    | cons e l1'' =>
      exfalso
      have hlen := congrArg List.length hin
      simp at hlen

lemma count_append_none {l Δ : List TraceItem} {a : TraceItem}
    (h : a ∉ Δ) : (l ++ Δ).count a = l.count a := by
  rw [List.count_append, List.count_eq_zero.mpr h]
  rfl

/-- The dependency list is part of a service's static fields. -/
lemma staticPart_dependantlist {s t : Service_T} (h : staticPart s = staticPart t) :
    s.dependantlist = t.dependantlist := by
  unfold staticPart at h
  exact congrArg (fun p => p.2.2.2.2.2) h

/-- A property of a service's name and dependency list transports along
`staticEq`. -/
lemma depsRank_transport {l l' : List Service_T} {deps : String → List String}
    {rnk : String → Nat} (hse : staticEq l l')
    (h : ∀ x s, Util_getService l x = some s →
      s.dependantlist = deps x ∧ ∀ d ∈ deps x, rnk d < rnk x) :
    ∀ x s, Util_getService l' x = some s →
      s.dependantlist = deps x ∧ ∀ d ∈ deps x, rnk d < rnk x := by
  intro x s hg'
  have hmap := staticEq_getService hse x
  rw [hg'] at hmap
  cases hg : Util_getService l x with
  | none => rw [hg] at hmap; exact absurd hmap (by simp)
  | some t =>
    rw [hg] at hmap
    simp only [Option.map_some', Option.some.injEq] at hmap
    obtain ⟨hd, hr⟩ := h x t hg
    exact ⟨(staticPart_dependantlist hmap).symm.trans hd, hr⟩

lemma visitedOf_update_self {st : St} {x : String} {s : Service_T} {st' : St}
    (hs : st'.services = updateService st.services x (fun t => {t with visited := true}))
    (hg : Util_getService st.services x = some s) :
    visitedOf st' x = true := by
  unfold visitedOf
  rw [hs, getService_update_self (f := fun t => {t with visited := true}) (fun _ => rfl), hg]
  rfl

lemma visitedOf_update_other {st : St} {x y : String} {f : Service_T → Service_T}
    {st' : St} (hs : st'.services = updateService st.services x f)
    (hname : ∀ s, (f s).name = s.name) (hxy : y ≠ x) :
    visitedOf st' y = visitedOf st y := by
  unfold visitedOf
  rw [hs, getService_update_other hname hxy]

/-- The start traversal's master invariant: along a successful `doStartAux`
run over an acyclic dependency graph (witnessed by the rank function `rnk`),
with `E` the services currently in progress higher up the recursion, the
trace stays post-ordered, every `visitStart`/`act` entry stays unique, the
marks stay covered by `E` and the `act` entries, the in-progress services
gather no new entries, and every processed service ends visited. -/
lemma doStartAux_master {env : Env} {deps : String → List String} {rnk : String → Nat} :
    ∀ {fuel : Nat} {names : List String} {E : List String} {st st' : St},
    doStartAux env fuel names st = some st' →
    (∀ x s, Util_getService st.services x = some s →
      s.dependantlist = deps x ∧ ∀ d ∈ deps x, rnk d < rnk x) →
    (∀ e ∈ E, ∀ x ∈ names, rnk x < rnk e) →
    (∀ y, visitedOf st y = true → y ∈ E ∨ TraceItem.act y ∈ st.trace) →
    (∀ y, visitedOf st y = false →
      st.trace.count (TraceItem.visitStart y) = 0 ∧ st.trace.count (TraceItem.act y) = 0) →
    (∀ y, st.trace.count (TraceItem.visitStart y) ≤ 1 ∧
      st.trace.count (TraceItem.act y) ≤ st.trace.count (TraceItem.visitStart y)) →
    postOrdered deps st.trace →
    Extends st st' ∧
    (∀ y, visitedOf st' y = true → y ∈ E ∨ TraceItem.act y ∈ st'.trace) ∧
    (∀ y, visitedOf st' y = false →
      st'.trace.count (TraceItem.visitStart y) = 0 ∧ st'.trace.count (TraceItem.act y) = 0) ∧
    (∀ y, st'.trace.count (TraceItem.visitStart y) ≤ 1 ∧
      st'.trace.count (TraceItem.act y) ≤ st'.trace.count (TraceItem.visitStart y)) ∧
    postOrdered deps st'.trace ∧
    (∀ e ∈ E,
      st'.trace.count (TraceItem.visitStart e) = st.trace.count (TraceItem.visitStart e) ∧
      st'.trace.count (TraceItem.act e) = st.trace.count (TraceItem.act e)) ∧
    (∀ y ∈ names, visitedOf st' y = true) := by
  intro fuel
  induction fuel with
  | zero =>
    intro names E st st' h _ _ _ _ _ _
    exact absurd h (by simp [doStartAux])
  | succ fuel ih =>
    intro names E st st' h hDR hE hA hC0 hC1 hP
    cases names with
    | nil =>
      simp only [doStartAux, Option.some.injEq] at h
      subst h
      exact ⟨Extends.rfl st, hA, hC0, hC1, hP, fun e _ => ⟨rfl, rfl⟩, by simp⟩
    | cons x rest =>
      rw [doStartAux] at h
      cases hg : Util_getService st.services x with
      | none => rw [hg] at h; exact absurd h (by simp)
      | some s =>
        simp only [hg] at h
        by_cases hv : s.visited
        · simp only [hv, if_true] at h
          obtain ⟨hext, hA', hC0', hC1', hP', hK', hV'⟩ :=
            ih h hDR (fun e he y hy => hE e he y (by simp [hy])) hA hC0 hC1 hP
          refine ⟨hext, hA', hC0', hC1', hP', hK', ?_⟩
          intro y hy
          rcases List.mem_cons.mp hy with rfl | hy
          · refine hext.2.2.1 y ?_
            unfold visitedOf
            rw [hg]
            simpa using hv
          · exact hV' y hy
        · simp only [hv, Bool.false_eq_true, if_false] at h
          split at h
          · exact absurd h (by simp)
          · next st2 hd =>
            split at h
            · exact absurd h (by simp)
            · next st8 hss =>
              set st1 : St := {st with services := updateService st.services x (fun t => {t with visited := true}), trace := st.trace ++ [TraceItem.visitStart x]} with hst1
              have hs1 : st1.services = updateService st.services x
                  (fun t => {t with visited := true}) := by rw [hst1]
              have ht1 : st1.trace = st.trace ++ [TraceItem.visitStart x] := by rw [hst1]
              have hvst : visitedOf st x = false := by
                unfold visitedOf
                rw [hg]
                simpa using hv
              have hvst1 : visitedOf st1 x = true := visitedOf_update_self hs1 hg
              have hdx : s.dependantlist = deps x := (hDR x s hg).1
              have hrx : ∀ d ∈ deps x, rnk d < rnk x := (hDR x s hg).2
              have hxE : x ∉ E := by
                intro hmem
                exact absurd (hE x hmem x (by simp)) (lt_irrefl _)
              have hDR1 : ∀ z t, Util_getService st1.services z = some t →
                  t.dependantlist = deps z ∧ ∀ d ∈ deps z, rnk d < rnk z := by
                refine depsRank_transport ?_ hDR
                rw [hs1]
                exact staticEq_update (fun _ => rfl)
              have hE1 : ∀ e ∈ x :: E, ∀ y ∈ s.dependantlist, rnk y < rnk e := by
                intro e he y hy
                rw [hdx] at hy
                rcases List.mem_cons.mp he with rfl | he
                · exact hrx y hy
                · exact lt_trans (hrx y hy) (hE e he x (by simp))
              have hA1 : ∀ y, visitedOf st1 y = true →
                  y ∈ x :: E ∨ TraceItem.act y ∈ st1.trace := by
                intro y hy
                by_cases hxy : y = x
                · exact Or.inl (by simp [hxy])
                · rw [visitedOf_update_other hs1 (fun _ => rfl) hxy] at hy
                  rcases hA y hy with hmem | hact
                  · exact Or.inl (by simp [hmem])
                  · refine Or.inr ?_
                    rw [ht1]
                    exact List.mem_append.mpr (Or.inl hact)
              have hC01 : ∀ y, visitedOf st1 y = false →
                  st1.trace.count (TraceItem.visitStart y) = 0 ∧
                  st1.trace.count (TraceItem.act y) = 0 := by
                intro y hy
                have hxy : y ≠ x := by
                  intro hxy
                  rw [hxy, hvst1] at hy
                  exact absurd hy (by simp)
                rw [visitedOf_update_other hs1 (fun _ => rfl) hxy] at hy
                obtain ⟨hc1, hc2⟩ := hC0 y hy
                rw [ht1]
                rw [count_append_none (by simp [hxy]), count_append_none (by simp)]
                exact ⟨hc1, hc2⟩
              have hC11 : ∀ y, st1.trace.count (TraceItem.visitStart y) ≤ 1 ∧
                  st1.trace.count (TraceItem.act y) ≤
                    st1.trace.count (TraceItem.visitStart y) := by
                intro y
                by_cases hxy : y = x
                · subst hxy
                  obtain ⟨hz1, hz2⟩ := hC0 y hvst
                  rw [ht1, List.count_append, List.count_append, hz1, hz2]
                  simp
                · rw [ht1, count_append_none (by simp [hxy]), count_append_none (by simp)]
                  exact hC1 y
              have hP1 : postOrdered deps st1.trace := by
                rw [ht1]
                exact postOrdered_append_quiet hP (fun y => by simp)
              obtain ⟨hext2, hA2, hC02, hC12, hP2, hK2, hV2⟩ :=
                ih hd hDR1 hE1 hA1 hC01 hC11 hP1
              have hext1 : Extends st st1 := by
                rw [hst1]
                exact extends_markVisited st x
              set st3 : St := {st2 with trace := st2.trace ++ [TraceItem.act x]} with hst3
              have hs3 : st3.services = st2.services := by rw [hst3]
              have ht3 : st3.trace = st2.trace ++ [TraceItem.act x] := by rw [hst3]
              have hvx2 : visitedOf st2 x = true := hext2.2.2.1 x hvst1
              have hdeps_acts : ∀ d ∈ deps x, TraceItem.act d ∈ st2.trace := by
                intro d hdd
                have hdd' : d ∈ s.dependantlist := by rw [hdx]; exact hdd
                rcases hA2 d (hV2 d hdd') with hmem | hact
                · rcases List.mem_cons.mp hmem with rfl | hmemE
                  · exact absurd (hrx d hdd) (lt_irrefl _)
                  · exact absurd (lt_trans (hrx d hdd) (hE d hmemE x (by simp)))
                      (lt_irrefl _)
                · exact hact
              have hP3 : postOrdered deps st3.trace := by
                rw [ht3]
                exact postOrdered_append_act hP2 hdeps_acts
              have hA3 : ∀ y, visitedOf st2 y = true →
                  y ∈ E ∨ TraceItem.act y ∈ st3.trace := by
                intro y hy
                rcases hA2 y hy with hmem | hact
                · rcases List.mem_cons.mp hmem with rfl | hmemE
                  · refine Or.inr ?_
                    rw [ht3]
                    simp
                  · exact Or.inl hmemE
                · refine Or.inr ?_
                  rw [ht3]
                  exact List.mem_append.mpr (Or.inl hact)
              have hK1cnt : st1.trace.count (TraceItem.visitStart x) = 1 ∧
                  st1.trace.count (TraceItem.act x) = 0 := by
                obtain ⟨hz1, hz2⟩ := hC0 x hvst
                rw [ht1, List.count_append, List.count_append, hz1, hz2]
                simp
              have hcnt2x : st2.trace.count (TraceItem.visitStart x) = 1 ∧
                  st2.trace.count (TraceItem.act x) = 0 := by
                obtain ⟨hw1, hw2⟩ := hK2 x (by simp)
                rw [hw1, hw2]
                exact hK1cnt
              have hC03 : ∀ y, visitedOf st2 y = false →
                  st3.trace.count (TraceItem.visitStart y) = 0 ∧
                  st3.trace.count (TraceItem.act y) = 0 := by
                intro y hy
                have hxy : y ≠ x := by
                  intro hxy
                  rw [hxy, hvx2] at hy
                  exact absurd hy (by simp)
                obtain ⟨hc1, hc2⟩ := hC02 y hy
                rw [ht3, count_append_none (by simp), count_append_none (by simp [hxy])]
                exact ⟨hc1, hc2⟩
              have hC13 : ∀ y, st3.trace.count (TraceItem.visitStart y) ≤ 1 ∧
                  st3.trace.count (TraceItem.act y) ≤
                    st3.trace.count (TraceItem.visitStart y) := by
                intro y
                by_cases hxy : y = x
                · subst hxy
                  rw [ht3, count_append_none (by simp), List.count_append,
                    hcnt2x.1, hcnt2x.2]
                  simp
                · rw [ht3, count_append_none (by simp), count_append_none (by simp [hxy])]
                  exact hC12 y
              obtain ⟨hsv8, Δ8, htr8, hΔ8⟩ := startService_spec hss
              have hcnt8 : ∀ a : TraceItem, (∀ z, a ≠ TraceItem.exec z CmdKind.start) →
                  (∀ z b m, a ≠ TraceItem.ev z b m) →
                  st8.trace.count a = st3.trace.count a := by
                intro a hne he
                rw [htr8]
                apply count_append_none
                intro hmem
                rcases hΔ8 a hmem with h' | ⟨b, m, h'⟩
                · exact hne x h'
                · exact he x b m h'
              have hvis8 : ∀ y, visitedOf st8 y = visitedOf st2 y := by
                intro y
                rw [visitedOf_eq_services (hsv8.trans hs3) y]
              set stM : St := Util_monitorSet st8 x with hstM
              have hmm := monitorSet_marks st8 x
              have hvisM : ∀ y, visitedOf stM y = visitedOf st2 y := by
                intro y
                rw [hstM, hmm.2.1 y, hvis8 y]
              have htM : stM.trace = st8.trace := by rw [hstM]; exact hmm.1
              have hDRM : ∀ z t, Util_getService stM.services z = some t →
                  t.dependantlist = deps z ∧ ∀ d ∈ deps z, rnk d < rnk z := by
                refine depsRank_transport ?_ hDR1
                refine staticEq_trans hext2.2.1 ?_
                have h1 : staticEq st2.services st8.services := by
                  rw [hsv8.trans hs3]
                  exact staticEq_refl _
                exact staticEq_trans h1 (by rw [hstM]; exact hmm.2.2.2)
              have hEM : ∀ e ∈ E, ∀ y ∈ rest, rnk y < rnk e :=
                fun e he y hy => hE e he y (by simp [hy])
              have hAM : ∀ y, visitedOf stM y = true →
                  y ∈ E ∨ TraceItem.act y ∈ stM.trace := by
                intro y hy
                rw [hvisM y] at hy
                rcases hA3 y hy with hmem | hact
                · exact Or.inl hmem
                · refine Or.inr ?_
                  rw [htM, htr8]
                  exact List.mem_append.mpr (Or.inl hact)
              have hC0M : ∀ y, visitedOf stM y = false →
                  stM.trace.count (TraceItem.visitStart y) = 0 ∧
                  stM.trace.count (TraceItem.act y) = 0 := by
                intro y hy
                rw [hvisM y] at hy
                rw [htM, hcnt8 _ (by simp) (by simp), hcnt8 _ (by simp) (by simp)]
                exact hC03 y hy
              have hC1M : ∀ y, stM.trace.count (TraceItem.visitStart y) ≤ 1 ∧
                  stM.trace.count (TraceItem.act y) ≤
                    stM.trace.count (TraceItem.visitStart y) := by
                intro y
                rw [htM, hcnt8 _ (by simp) (by simp), hcnt8 _ (by simp) (by simp)]
                exact hC13 y
              have hPM : postOrdered deps stM.trace := by
                rw [htM, htr8]
                refine postOrdered_append_quiet hP3 ?_
                intro y hmem
                rcases hΔ8 _ hmem with h' | ⟨b, m, h'⟩ <;> simp at h'
              obtain ⟨hextR, hA', hC0', hC1', hP', hK', hV'⟩ :=
                ih h hDRM hEM hAM hC0M hC1M hPM
              have hextM : Extends st stM := by
                refine (hext1.trans hext2).trans ?_
                refine Extends.trans ?_ (by rw [hstM]; exact extends_monitorSet st8 x)
                refine Extends.trans ?_ (extends_of_append hsv8 ⟨Δ8, htr8⟩)
                rw [hst3]
                exact extends_actTrace st2 x
              refine ⟨hextM.trans hextR, hA', hC0', hC1', hP', ?_, ?_⟩
              · intro e he
                obtain ⟨hk1, hk2⟩ := hK' e he
                have hex : e ≠ x := fun hex => hxE (hex ▸ he)
                obtain ⟨hm1, hm2⟩ := hK2 e (by simp [he])
                have he1v : st1.trace.count (TraceItem.visitStart e)
                    = st.trace.count (TraceItem.visitStart e) := by
                  rw [ht1, count_append_none (by simp [hex])]
                have he1a : st1.trace.count (TraceItem.act e)
                    = st.trace.count (TraceItem.act e) := by
                  rw [ht1, count_append_none (by simp)]
                have he3v : st3.trace.count (TraceItem.visitStart e)
                    = st2.trace.count (TraceItem.visitStart e) := by
                  rw [ht3, count_append_none (by simp)]
                have he3a : st3.trace.count (TraceItem.act e)
                    = st2.trace.count (TraceItem.act e) := by
                  rw [ht3, count_append_none (by simp [hex])]
                constructor
                · rw [hk1, htM, hcnt8 _ (by simp) (by simp), he3v, hm1, he1v]
                · rw [hk2, htM, hcnt8 _ (by simp) (by simp), he3a, hm2, he1a]
              · intro y hy
                rcases List.mem_cons.mp hy with rfl | hy
                · refine hextR.2.2.1 y ?_
                  rw [hvisM y]
                  exact hvx2
                · exact hV' y hy

/-- **C5**: over an acyclic service dependency graph — acyclicity witnessed
by a rank function that decreases along dependencies, shared subtrees
allowed — a successful start traversal `_doStart` from a state with clean
marks and an empty trace is post-order (every service a started service
depends on is acted on strictly earlier in the trace) and visits and
starts no service more than once. -/
theorem C5_doStart_postorder {env : Env} {deps : String → List String}
    {rnk : String → Nat} {fuel : Nat} {st : St} {S : String} {st' : St}
    (hDR : ∀ s ∈ st.services, s.dependantlist = deps s.name ∧
      ∀ d ∈ deps s.name, rnk d < rnk s.name)
    (hclean : ∀ s ∈ st.services, s.visited = false)
    (htr : st.trace = [])
    (h : _doStart env fuel S st = some st') :
    (∀ y, st'.trace.count (TraceItem.visitStart y) ≤ 1 ∧
      st'.trace.count (TraceItem.act y) ≤ 1) ∧
    (∀ l1 y l2, st'.trace = l1 ++ TraceItem.act y :: l2 →
      ∀ d ∈ deps y, TraceItem.act d ∈ l1) := by
  unfold _doStart at h
  have hDR' : ∀ x s, Util_getService st.services x = some s →
      s.dependantlist = deps x ∧ ∀ d ∈ deps x, rnk d < rnk x := by
    intro x s hg
    obtain ⟨hmem, hname⟩ := getService_mem hg
    have hs := hDR s hmem
    rw [hname] at hs
    exact hs
  have hA : ∀ y, visitedOf st y = true →
      y ∈ ([] : List String) ∨ TraceItem.act y ∈ st.trace := by
    intro y hy
    unfold visitedOf at hy
    cases hgy : Util_getService st.services y with
    | none => rw [hgy] at hy; exact absurd hy (by simp)
    | some t =>
      rw [hgy] at hy
      simp only [Option.map_some', Option.getD_some] at hy
      have hcl := hclean t (getService_mem hgy).1
      rw [hcl] at hy
      exact absurd hy (by simp)
  obtain ⟨-, -, -, hC1', hP', -, -⟩ :=
    doStartAux_master h hDR' (by simp) hA (by simp [htr]) (by simp [htr])
      (by rw [htr]; exact postOrdered_nil deps)
  refine ⟨?_, hP'⟩
  intro y
  obtain ⟨h1, h2⟩ := hC1' y
  exact ⟨h1, le_trans h2 h1⟩

/-- A three-service diamond: `c` depends on `a` and `b`, `b` depends on
`a` — a shared subtree. -/
def svcA2 : Service_T := { name := "a" }

def svcB2 : Service_T := { name := "b", dependantlist := ["a"] }

def svcC2 : Service_T := { name := "c", dependantlist := ["a", "b"] }

def stG : St := { services := [svcA2, svcB2, svcC2] }

def depsG : String → List String :=
  fun x => if x = "b" then ["a"] else if x = "c" then ["a", "b"] else []

def rnkG : String → Nat :=
  fun x => if x = "a" then 0 else if x = "b" then 1 else 2

theorem C5_doStart_postorder_witness :
    ∃ st', _doStart envN 8 "c" stG = some st' ∧
      ((∀ y, st'.trace.count (TraceItem.visitStart y) ≤ 1 ∧
        st'.trace.count (TraceItem.act y) ≤ 1) ∧
      (∀ l1 y l2, st'.trace = l1 ++ TraceItem.act y :: l2 →
        ∀ d ∈ depsG y, TraceItem.act d ∈ l1)) := by
  refine ⟨_, rfl, ?_⟩
  exact @C5_doStart_postorder envN depsG rnkG 8 stG "c" _
    (by decide) (by decide) rfl (by rfl)

end Monit
